import Mathlib

/-
Verification development for the extended Hamming SEC-DED codecs of this
repository: three variants of the same algorithm, packaged separately in the
source as hamming4secded (8-bit codeword), hamming11secded (16-bit codeword)
and hamming57secded (64-bit codeword).

Modelling conventions:
- Go int64 and uint64 values are represented by their 64-bit two's-complement
  bit pattern, a Nat below 2 ^ 64.  All bitwise operators (&, |, ^, <<, >>)
  act identically on the bit pattern, so they are translated to the Nat
  operators &&&, |||, ^^^, <<<, >>>.  The only operation that can move bits
  past position 63 is the left shift inside PackWithCheckBits, so the Go
  wrap-around is made explicit there with a % 2 ^ 64.
- Conversions uint8(e) are modelled as e % 256 (the Go conversion truncates
  to the low byte).
- The Go loop in onesCount64 clears the lowest set bit until the word is
  zero; on a 64-bit word it runs at most 64 iterations, so it is modelled by
  a fueled recursion with fuel 64, which performs exactly the same steps on
  every input below 2 ^ 64.
- Functions that can panic in Go (mapSyndromeToBitPos) return an Option, with
  none for each panic branch, and Correct propagates the Option.
-/

set_option maxRecDepth 8000
set_option synthInstance.maxSize 20000
set_option synthInstance.maxHeartbeats 4000000

/-- The clear-lowest-set-bit counting loop, fueled.  Each step replaces x by
x &&& (x - 1) and counts one; fuel bounds the number of iterations. -/
def onesCountAux : Nat → Nat → Nat
  | 0, _ => 0
  | fuel + 1, x => if x = 0 then 0 else onesCountAux fuel (x &&& (x - 1)) + 1

/-- Go func onesCount64 (identical copy in each of the three packages):
population count of a 64-bit word by repeatedly clearing the lowest set
bit. -/
def onesCount64 (x : Nat) : Nat := onesCountAux 64 x

/-- Go func computeParityInt64 (identical copy in each package). -/
def computeParityInt64 (val : Nat) : Nat := onesCount64 val &&& 1

/-- Go func computeParity (identical copy in each package). -/
def computeParity (val : Nat) : Nat := onesCount64 val &&& 1

/-- Reference population count used only in proofs: sum of binary digits. -/
def popB (x : Nat) : Nat :=
  if _h : x = 0 then 0 else x % 2 + popB (x / 2)
decreasing_by exact Nat.div_lt_self (Nat.pos_of_ne_zero _h) (by decide)

namespace hamming4secded

def globalParityBitp : Nat := 1

def checkBitp0 : Nat := 2

def checkBitp1 : Nat := 3

def checkBitp2 : Nat := 4

/-- Go func computeHammingCheckBits, package hamming4secded. -/
def computeHammingCheckBits (packedVal : Nat) : Nat :=
  let u := packedVal
  let p2 := computeParity (u &&& 0xe0)
  let p1 := computeParity (u &&& 0xc1)
  let p0 := computeParity (u &&& 0xa1)
  let cbs := (p2 <<< checkBitp2) ||| (p1 <<< checkBitp1) ||| (p0 <<< checkBitp0)
  cbs % 256

/-- Go func PackWithCheckBits, package hamming4secded.  The shift by 5 is the
only place where bits can cross position 63, hence the explicit wrap. -/
def PackWithCheckBits (inputVal : Nat) (tagBit : Nat) : Nat :=
  let packed := ((inputVal <<< 5) % 2 ^ 64) ||| (tagBit &&& 1)
  let checkbits := computeHammingCheckBits packed
  let v := packed ||| checkbits
  let parity := computeParityInt64 v
  v ||| ((parity &&& 1) <<< globalParityBitp)

/-- Go func getHammingCheckBits, package hamming4secded. -/
def getHammingCheckBits (packedCheckable : Nat) : Nat :=
  (packedCheckable &&& 0x1c) % 256

/-- Go func mapSyndromeToBitPos, package hamming4secded; the two panic
branches are modelled as none. -/
def mapSyndromeToBitPos (syndrome : Nat) : Option (Nat × Bool) :=
  if syndrome > 7 then none
  else if syndrome > 4 then some (syndrome, false)
  else if syndrome = 4 then some (checkBitp2, true)
  else if syndrome = 3 then some (0, false)
  else if syndrome = 2 then some (checkBitp1, true)
  else if syndrome = 1 then some (checkBitp0, true)
  else none

/-- Go func Correct, package hamming4secded. -/
def Correct (packedCheckable : Nat) : Option (Nat × Nat) :=
  let parity := computeParityInt64 packedCheckable
  let oldCheckbits := getHammingCheckBits packedCheckable
  let checkbits := computeHammingCheckBits packedCheckable
  let syndrome := (checkbits ^^^ oldCheckbits) >>> 2
  if parity = 0 then
    if syndrome = 0 then
      some (0, packedCheckable)
    else
      some (2, 0)
  else
    if syndrome = 0 then
      some (1, packedCheckable ^^^ (1 <<< globalParityBitp))
    else
      match mapSyndromeToBitPos syndrome with
      | some (errBitPos, _) => some (1, packedCheckable ^^^ (1 <<< errBitPos))
      | none => none

/-- Proof-side abbreviation for the syndrome computed inside Correct. -/
def syndOf (w : Nat) : Nat :=
  (computeHammingCheckBits w ^^^ getHammingCheckBits w) >>> 2

/-- Proof-side table: the syndrome produced by flipping bit p of a valid
codeword (read off the check-bit masks; verified against syndOf below). -/
def synFun (p : Nat) : Nat :=
  if p = 0 then 3 else if p = 1 then 0 else if p = 2 then 1 else if p = 3 then 2
  else if p = 4 then 4 else p

end hamming4secded

namespace hamming11secded

def globalParityBitp : Nat := 1

def checkBitp0 : Nat := 2

def checkBitp1 : Nat := 3

def checkBitp2 : Nat := 4

def checkBitp3 : Nat := 5

/-- Go func computeHammingCheckBits, package hamming11secded. -/
def computeHammingCheckBits (packedVal : Nat) : Nat :=
  let u := packedVal
  let p3 := computeParity (u &&& 0xfe00)
  let p2 := computeParity (u &&& 0xf1c0)
  let p1 := computeParity (u &&& 0xcd81)
  let p0 := computeParity (u &&& 0xab41)
  let cbs := (p3 <<< checkBitp3) ||| (p2 <<< checkBitp2) |||
    (p1 <<< checkBitp1) ||| (p0 <<< checkBitp0)
  cbs % 256

/-- Go func PackWithCheckBits, package hamming11secded. -/
def PackWithCheckBits (inputVal : Nat) (tagBit : Nat) : Nat :=
  let packed := ((inputVal <<< 6) % 2 ^ 64) ||| (tagBit &&& 1)
  let checkbits := computeHammingCheckBits packed
  let v := packed ||| checkbits
  let parity := computeParityInt64 v
  v ||| ((parity &&& 1) <<< globalParityBitp)

/-- Go func getHammingCheckBits, package hamming11secded. -/
def getHammingCheckBits (packedCheckable : Nat) : Nat :=
  (packedCheckable &&& 0x3c) % 256

/-- Go func mapSyndromeToBitPos, package hamming11secded; panic branches are
none. -/
def mapSyndromeToBitPos (syndrome : Nat) : Option (Nat × Bool) :=
  if syndrome > 15 then none
  else if syndrome > 8 then some (syndrome, false)
  else if syndrome = 8 then some (checkBitp3, true)
  else if syndrome > 4 then some (syndrome + 1, false)
  else if syndrome = 4 then some (checkBitp2, true)
  else if syndrome = 3 then some (0, false)
  else if syndrome = 2 then some (checkBitp1, true)
  else if syndrome = 1 then some (checkBitp0, true)
  else none

/-- Go func Correct, package hamming11secded. -/
def Correct (packedCheckable : Nat) : Option (Nat × Nat) :=
  let parity := computeParityInt64 packedCheckable
  let oldCheckbits := getHammingCheckBits packedCheckable
  let checkbits := computeHammingCheckBits packedCheckable
  let syndrome := (checkbits ^^^ oldCheckbits) >>> 2
  if parity = 0 then
    if syndrome = 0 then
      some (0, packedCheckable)
    else
      some (2, 0)
  else
    if syndrome = 0 then
      some (1, packedCheckable ^^^ (1 <<< globalParityBitp))
    else
      match mapSyndromeToBitPos syndrome with
      | some (errBitPos, _) => some (1, packedCheckable ^^^ (1 <<< errBitPos))
      | none => none

/-- Proof-side abbreviation for the syndrome computed inside Correct. -/
def syndOf (w : Nat) : Nat :=
  (computeHammingCheckBits w ^^^ getHammingCheckBits w) >>> 2

/-- Proof-side table: the syndrome produced by flipping bit p of a valid
codeword (read off the check-bit masks; verified against syndOf below). -/
def synFun (p : Nat) : Nat :=
  if p = 0 then 3 else if p = 1 then 0 else if p = 2 then 1 else if p = 3 then 2
  else if p = 4 then 4 else if p = 5 then 8 else if p ≤ 8 then p - 1 else p

end hamming11secded

namespace hamming57secded

def globalParityBitp : Nat := 1

def checkBitp0 : Nat := 2

def checkBitp1 : Nat := 3

def checkBitp2 : Nat := 4

def checkBitp3 : Nat := 5

def checkBitp4 : Nat := 6

def checkBitp5 : Nat := 7

/-- Go func computeHammingCheckBits, package hamming57secded. -/
def computeHammingCheckBits (packedVal : Nat) : Nat :=
  let u := packedVal
  let p5 := computeParity (u &&& 0xfffffffe00000000)
  let p4 := computeParity (u &&& 0xffff0001fffc0000)
  let p3 := computeParity (u &&& 0xff00ff01fe03f800)
  let p2 := computeParity (u &&& 0xf0f0f0f1e1e3c700)
  let p1 := computeParity (u &&& 0xcccccccd999b3601)
  let p0 := computeParity (u &&& 0xaaaaaaab5556ad01)
  let cbs := (p5 <<< checkBitp5) ||| (p4 <<< checkBitp4) |||
    (p3 <<< checkBitp3) ||| (p2 <<< checkBitp2) |||
    (p1 <<< checkBitp1) ||| (p0 <<< checkBitp0)
  cbs % 256

/-- Go func PackWithCheckBits, package hamming57secded. -/
def PackWithCheckBits (inputVal : Nat) (tagBit : Nat) : Nat :=
  let packed := ((inputVal <<< 8) % 2 ^ 64) ||| (tagBit &&& 1)
  let checkbits := computeHammingCheckBits packed
  let v := packed ||| checkbits
  let parity := computeParityInt64 v
  v ||| ((parity &&& 1) <<< globalParityBitp)

/-- Go func getHammingCheckBits, package hamming57secded. -/
def getHammingCheckBits (packedCheckable : Nat) : Nat :=
  (packedCheckable &&& 0xfc) % 256

/-- Go func mapSyndromeToBitPos, package hamming57secded; panic branches are
none. -/
def mapSyndromeToBitPos (syndrome : Nat) : Option (Nat × Bool) :=
  if syndrome > 63 then none
  else if syndrome > 32 then some (syndrome, false)
  else if syndrome = 32 then some (checkBitp5, true)
  else if syndrome > 16 then some (syndrome + 1, false)
  else if syndrome = 16 then some (checkBitp4, true)
  else if syndrome > 8 then some (syndrome + 2, false)
  else if syndrome = 8 then some (checkBitp3, true)
  else if syndrome > 4 then some (syndrome + 3, false)
  else if syndrome = 4 then some (checkBitp2, true)
  else if syndrome = 3 then some (0, false)
  else if syndrome = 2 then some (checkBitp1, true)
  else if syndrome = 1 then some (checkBitp0, true)
  else none

/-- Go func Correct, package hamming57secded. -/
def Correct (packedCheckable : Nat) : Option (Nat × Nat) :=
  let parity := computeParityInt64 packedCheckable
  let oldCheckbits := getHammingCheckBits packedCheckable
  let checkbits := computeHammingCheckBits packedCheckable
  let syndrome := (checkbits ^^^ oldCheckbits) >>> 2
  if parity = 0 then
    if syndrome = 0 then
      some (0, packedCheckable)
    else
      some (2, 0)
  else
    if syndrome = 0 then
      some (1, packedCheckable ^^^ (1 <<< globalParityBitp))
    else
      match mapSyndromeToBitPos syndrome with
      | some (errBitPos, _) => some (1, packedCheckable ^^^ (1 <<< errBitPos))
      | none => none

/-- Proof-side abbreviation for the syndrome computed inside Correct. -/
def syndOf (w : Nat) : Nat :=
  (computeHammingCheckBits w ^^^ getHammingCheckBits w) >>> 2

/-- Proof-side table: the syndrome produced by flipping bit p of a valid
codeword (read off the check-bit masks; verified against syndOf below). -/
def synFun (p : Nat) : Nat :=
  if p = 0 then 3 else if p = 1 then 0 else if p = 2 then 1 else if p = 3 then 2
  else if p = 4 then 4 else if p = 5 then 8 else if p = 6 then 16 else if p = 7 then 32
  else if p ≤ 10 then p - 3 else if p ≤ 17 then p - 2 else if p ≤ 32 then p - 1 else p

end hamming57secded

/-- Spec-modelled (section 4.4 wording): test whether a syndrome value is a
power of two, i.e. names a check bit. -/
def isPow2 (s : Nat) : Bool := s != 0 && (s &&& (s - 1)) == 0

/-- Spec-modelled: base-two logarithm of a power of two below 2 ^ 64,
expressed structurally so that it evaluates in the kernel. -/
def log2ofPow (s : Nat) : Nat :=
  ((List.range 64).filter (fun i => 2 ^ i ≤ s)).length - 1

/-- The corrected (amended) syndrome-to-position formula of section 4.4:
syndrome 3 is the tag bit (position 0); a power-of-two syndrome s is check
bit log2(s) + 2; any other nonzero syndrome s is a Value-field bit at
position s adjusted upward by 1 for each power-of-two threshold NOT yet
passed, i.e. by the number of check-bit syndromes strictly greater than s. -/
def specSyndromePos (r s : Nat) : Nat :=
  if s = 3 then 0
  else if isPow2 s then log2ofPow s + 2
  else s + ((List.range r).filter (fun i => s < 2 ^ i)).length

/-! ### Shared lemmas about the population count and parity -/

theorem popB_zero : popB 0 = 0 := by
  unfold popB
  simp

theorem popB_unfold (x : Nat) : popB x = x % 2 + popB (x / 2) := by
  by_cases h : x = 0
  · subst h
    simp [popB_zero]
  · rw [popB]
    simp [h]

theorem popB_double (m : Nat) : popB (2 * m) = popB m := by
  rw [popB_unfold (2 * m)]
  have h1 : 2 * m % 2 = 0 := by omega
  have h2 : 2 * m / 2 = m := by omega
  rw [h1, h2]
  omega

theorem popB_double_add_one (m : Nat) : popB (2 * m + 1) = popB m + 1 := by
  rw [popB_unfold (2 * m + 1)]
  have h1 : (2 * m + 1) % 2 = 1 := by omega
  have h2 : (2 * m + 1) / 2 = m := by omega
  rw [h1, h2]
  omega

theorem popB_and_sub_one (x : Nat) (hx : x ≠ 0) :
    popB (x &&& (x - 1)) + 1 = popB x := by
  induction x using Nat.strong_induction_on with
  | _ x ih =>
    by_cases hpar : x % 2 = 1
    · -- odd case: clearing the lowest bit is just subtracting one
      obtain ⟨m, hm⟩ : ∃ m, x = 2 * m + 1 := ⟨x / 2, by omega⟩
      subst hm
      have hdiv : ((2 * m + 1) &&& (2 * m + 1 - 1)) / 2 = m := by
        rw [Nat.and_div_two]
        have h1 : (2 * m + 1) / 2 = m := by omega
        have h2 : (2 * m + 1 - 1) / 2 = m := by omega
        rw [h1, h2, Nat.and_self]
      have hmod : ((2 * m + 1) &&& (2 * m + 1 - 1)) % 2 = 0 := by
        have h2 : (2 * m + 1 - 1) % 2 = 0 := by omega
        have hcases : ((2 * m + 1) &&& (2 * m + 1 - 1)) % 2 = 0 ∨
            ((2 * m + 1) &&& (2 * m + 1 - 1)) % 2 = 1 := by omega
        rcases hcases with h | h
        · exact h
        · rw [Nat.and_mod_two_eq_one] at h
          omega
      have heq : (2 * m + 1) &&& (2 * m + 1 - 1) = 2 * m := by omega
      rw [heq, popB_double, popB_double_add_one]
    · -- even case: factor out the common factor two and recurse
      have hpar0 : x % 2 = 0 := by omega
      obtain ⟨m, hm⟩ : ∃ m, x = 2 * m := ⟨x / 2, by omega⟩
      subst hm
      have hmne : m ≠ 0 := by omega
      have hdiv : ((2 * m) &&& (2 * m - 1)) / 2 = m &&& (m - 1) := by
        rw [Nat.and_div_two]
        have h1 : 2 * m / 2 = m := by omega
        have h2 : (2 * m - 1) / 2 = m - 1 := by omega
        rw [h1, h2]
      have hmod : ((2 * m) &&& (2 * m - 1)) % 2 = 0 := by
        have hcases : ((2 * m) &&& (2 * m - 1)) % 2 = 0 ∨
            ((2 * m) &&& (2 * m - 1)) % 2 = 1 := by omega
        rcases hcases with h | h
        · exact h
        · rw [Nat.and_mod_two_eq_one] at h
          omega
      have heq : (2 * m) &&& (2 * m - 1) = 2 * (m &&& (m - 1)) := by omega
      rw [heq, popB_double, popB_double]
      exact ih m (by omega) hmne

theorem popB_pos (x : Nat) (hx : x ≠ 0) : 1 ≤ popB x := by
  have := popB_and_sub_one x hx
  omega

theorem popB_le (n : Nat) : ∀ x, x < 2 ^ n → popB x ≤ n := by
  induction n with
  | zero =>
    intro x hx
    have : x = 0 := by omega
    subst this
    simp [popB_zero]
  | succ n ih =>
    intro x hx
    by_cases h : x = 0
    · subst h
      simp [popB_zero]
    · rw [popB_unfold x]
      have hdiv : x / 2 < 2 ^ n := by
        rw [Nat.pow_succ] at hx
        omega
      have := ih (x / 2) hdiv
      omega

theorem onesCountAux_eq (fuel : Nat) : ∀ x, popB x ≤ fuel → onesCountAux fuel x = popB x := by
  induction fuel with
  | zero =>
    intro x hx
    have hx0 : x = 0 := by
      by_contra h
      have := popB_pos x h
      omega
    subst hx0
    simp [onesCountAux, popB_zero]
  | succ fuel ih =>
    intro x hx
    by_cases h : x = 0
    · subst h
      simp [onesCountAux, popB_zero]
    · have hstep := popB_and_sub_one x h
      have : onesCountAux (fuel + 1) x = onesCountAux fuel (x &&& (x - 1)) + 1 := by
        simp [onesCountAux, h]
      rw [this, ih (x &&& (x - 1)) (by omega)]
      omega

theorem onesCount64_eq (x : Nat) (hx : x < 2 ^ 64) : onesCount64 x = popB x :=
  onesCountAux_eq 64 x (popB_le 64 x hx)

theorem computeParityInt64_eq_popB (x : Nat) (hx : x < 2 ^ 64) :
    computeParityInt64 x = popB x % 2 := by
  unfold computeParityInt64
  rw [Nat.and_one_is_mod, onesCount64_eq x hx]

theorem computeParity_eq_parityInt64 (x : Nat) : computeParity x = computeParityInt64 x := rfl

theorem parity_lt (x : Nat) : computeParityInt64 x < 2 := by
  unfold computeParityInt64
  rw [Nat.and_one_is_mod]
  omega

theorem popB_xor_mod (x : Nat) : ∀ y, popB (x ^^^ y) % 2 = (popB x + popB y) % 2 := by
  induction x using Nat.strong_induction_on with
  | _ x ih =>
    intro y
    by_cases hx : x = 0
    · subst hx
      simp [popB_zero]
    · rw [popB_unfold (x ^^^ y), popB_unfold x, popB_unfold y]
      have h1 : (x ^^^ y) % 2 = (x % 2 + y % 2) % 2 := by
        rw [Nat.xor_mod_two_eq]
        omega
      have h2 : (x ^^^ y) / 2 = x / 2 ^^^ y / 2 := Nat.xor_div_two
      rw [h1, h2]
      have h3 := ih (x / 2) (by omega) (y / 2)
      omega

theorem parity_xor (x y : Nat) (hx : x < 2 ^ 64) (hy : y < 2 ^ 64) :
    computeParityInt64 (x ^^^ y) =
      (computeParityInt64 x + computeParityInt64 y) % 2 := by
  have hxy : x ^^^ y < 2 ^ 64 := Nat.xor_lt_two_pow hx hy
  rw [computeParityInt64_eq_popB _ hxy, computeParityInt64_eq_popB _ hx,
    computeParityInt64_eq_popB _ hy]
  have := popB_xor_mod x y
  omega

/-! ### Shared bit-manipulation helpers -/

theorem lor_eq_xor_of_and_eq_zero {a b : Nat} (h : a &&& b = 0) :
    a ||| b = a ^^^ b := by
  apply Nat.eq_of_testBit_eq
  intro i
  have hb := congrArg (fun z => Nat.testBit z i) h
  simp only [Nat.testBit_and, Nat.zero_testBit] at hb
  cases hA : a.testBit i <;> cases hB : b.testBit i <;> simp_all

theorem and_eq_zero_subset {a m mp : Nat} (h : a &&& m = 0) (hs : mp &&& m = mp) :
    a &&& mp = 0 := by
  calc a &&& mp = a &&& (mp &&& m) := by rw [hs]
    _ = a &&& (m &&& mp) := by rw [Nat.and_comm mp m]
    _ = (a &&& m) &&& mp := by rw [Nat.and_assoc]
    _ = 0 &&& mp := by rw [h]
    _ = 0 := Nat.zero_and mp

theorem and_eq_zero_of_subset_left {y R m : Nat} (hy : y &&& R = y) (hRm : R &&& m = 0) :
    y &&& m = 0 := by
  calc y &&& m = (y &&& R) &&& m := by rw [hy]
    _ = y &&& (R &&& m) := Nat.and_assoc y R m
    _ = y &&& 0 := by rw [hRm]
    _ = 0 := Nat.and_zero y

theorem xor_shiftRight (a b k : Nat) : (a ^^^ b) >>> k = a >>> k ^^^ b >>> k := by
  apply Nat.eq_of_testBit_eq
  intro i
  simp

theorem low_bits_zero (v k : Nat) (hk : k ≤ 64) :
    ((v <<< k) % 2 ^ 64) &&& (2 ^ k - 1) = 0 := by
  rw [Nat.and_pow_two_sub_one_eq_mod, Nat.mod_mod_of_dvd _ (Nat.pow_dvd_pow 2 hk),
    Nat.shiftLeft_eq, Nat.mul_mod_left]

theorem xor_mix (a b c d : Nat) : (a ^^^ b) ^^^ (c ^^^ d) = (a ^^^ c) ^^^ (b ^^^ d) := by
  rw [Nat.xor_assoc, Nat.xor_assoc]
  congr 1
  rw [← Nat.xor_assoc, ← Nat.xor_assoc]
  congr 1
  exact Nat.xor_comm b c

theorem cparity_xor (x y : Nat) (hx : x < 2 ^ 64) (hy : y < 2 ^ 64) :
    computeParity (x ^^^ y) = (computeParity x + computeParity y) % 2 :=
  parity_xor x y hx hy

theorem cparity_lt (x : Nat) : computeParity x < 2 :=
  parity_lt x

theorem parity_two_pow : ∀ p, p < 64 → computeParityInt64 (1 <<< p) = 1 := by decide

/-! ### hamming4secded: structural lemmas -/

theorem h4_cbs_xor : ∀ a2 < 2, ∀ a1 < 2, ∀ a0 < 2, ∀ b2 < 2, ∀ b1 < 2, ∀ b0 < 2,
    ((((a2 + b2) % 2) <<< hamming4secded.checkBitp2 |||
      ((a1 + b1) % 2) <<< hamming4secded.checkBitp1 |||
      ((a0 + b0) % 2) <<< hamming4secded.checkBitp0) % 256) =
      ((a2 <<< hamming4secded.checkBitp2 ||| a1 <<< hamming4secded.checkBitp1 |||
        a0 <<< hamming4secded.checkBitp0) % 256) ^^^
      ((b2 <<< hamming4secded.checkBitp2 ||| b1 <<< hamming4secded.checkBitp1 |||
        b0 <<< hamming4secded.checkBitp0) % 256) := by decide

theorem h4_check_xor (x y : Nat) :
    hamming4secded.computeHammingCheckBits (x ^^^ y) =
      hamming4secded.computeHammingCheckBits x ^^^ hamming4secded.computeHammingCheckBits y := by
  simp only [hamming4secded.computeHammingCheckBits]
  rw [@Nat.and_xor_distrib_right x y 0xe0, @Nat.and_xor_distrib_right x y 0xc1,
    @Nat.and_xor_distrib_right x y 0xa1]
  rw [cparity_xor _ _ (Nat.and_lt_two_pow x (by norm_num)) (Nat.and_lt_two_pow y (by norm_num)),
    cparity_xor _ _ (Nat.and_lt_two_pow x (by norm_num)) (Nat.and_lt_two_pow y (by norm_num)),
    cparity_xor _ _ (Nat.and_lt_two_pow x (by norm_num)) (Nat.and_lt_two_pow y (by norm_num))]
  exact h4_cbs_xor _ (cparity_lt _) _ (cparity_lt _) _ (cparity_lt _) _ (cparity_lt _)
    _ (cparity_lt _) _ (cparity_lt _)

theorem h4_cbs_subset : ∀ a2 < 2, ∀ a1 < 2, ∀ a0 < 2,
    ((a2 <<< hamming4secded.checkBitp2 ||| a1 <<< hamming4secded.checkBitp1 |||
      a0 <<< hamming4secded.checkBitp0) % 256) &&& 0x1c =
      ((a2 <<< hamming4secded.checkBitp2 ||| a1 <<< hamming4secded.checkBitp1 |||
        a0 <<< hamming4secded.checkBitp0) % 256) := by decide

theorem h4_check_subset (x : Nat) :
    hamming4secded.computeHammingCheckBits x &&& 0x1c =
      hamming4secded.computeHammingCheckBits x := by
  simp only [hamming4secded.computeHammingCheckBits]
  exact h4_cbs_subset _ (cparity_lt _) _ (cparity_lt _) _ (cparity_lt _)

theorem h4_cbs_lt : ∀ a2 < 2, ∀ a1 < 2, ∀ a0 < 2,
    ((a2 <<< hamming4secded.checkBitp2 ||| a1 <<< hamming4secded.checkBitp1 |||
      a0 <<< hamming4secded.checkBitp0) % 256) < 2 ^ 5 := by decide

theorem h4_check_lt (x : Nat) : hamming4secded.computeHammingCheckBits x < 2 ^ 5 := by
  simp only [hamming4secded.computeHammingCheckBits]
  exact h4_cbs_lt _ (cparity_lt _) _ (cparity_lt _) _ (cparity_lt _)

theorem h4_check_reserved (y : Nat) (hy : y &&& 0x1e = y) :
    hamming4secded.computeHammingCheckBits y = 0 := by
  have m2 : y &&& 0xe0 = 0 := and_eq_zero_of_subset_left hy (by decide)
  have m1 : y &&& 0xc1 = 0 := and_eq_zero_of_subset_left hy (by decide)
  have m0 : y &&& 0xa1 = 0 := and_eq_zero_of_subset_left hy (by decide)
  simp only [hamming4secded.computeHammingCheckBits]
  rw [m2, m1, m0]
  decide

theorem h4_get_xor (x y : Nat) :
    hamming4secded.getHammingCheckBits (x ^^^ y) =
      hamming4secded.getHammingCheckBits x ^^^ hamming4secded.getHammingCheckBits y := by
  simp only [hamming4secded.getHammingCheckBits]
  rw [@Nat.and_xor_distrib_right x y 0x1c]
  have hx : x &&& 0x1c < 256 := by have := @Nat.and_le_right x 0x1c; omega
  have hy : y &&& 0x1c < 256 := by have := @Nat.and_le_right y 0x1c; omega
  have hxy : (x &&& 0x1c) ^^^ (y &&& 0x1c) < 256 := by
    have h8 : (256 : Nat) = 2 ^ 8 := by norm_num
    rw [h8]
    exact Nat.xor_lt_two_pow (by omega) (by omega)
  rw [Nat.mod_eq_of_lt hxy, Nat.mod_eq_of_lt hx, Nat.mod_eq_of_lt hy]

theorem h4_syndOf_xor (x y : Nat) :
    hamming4secded.syndOf (x ^^^ y) =
      hamming4secded.syndOf x ^^^ hamming4secded.syndOf y := by
  simp only [hamming4secded.syndOf]
  rw [h4_check_xor, h4_get_xor, xor_mix, xor_shiftRight]

theorem h4_syndOf_lt (x : Nat) : hamming4secded.syndOf x < 8 := by
  simp only [hamming4secded.syndOf, hamming4secded.getHammingCheckBits]
  have hc := h4_check_lt x
  have hg : (x &&& 0x1c) % 256 < 2 ^ 5 := by have := @Nat.and_le_right x 0x1c; omega
  have hxor := Nat.xor_lt_two_pow hc hg
  rw [Nat.shiftRight_eq_div_pow]
  omega

theorem h4_correct_p0s0 (w : Nat) (hp : computeParityInt64 w = 0)
    (hs : hamming4secded.syndOf w = 0) :
    hamming4secded.Correct w = some (0, w) := by
  simp only [hamming4secded.Correct]
  simp only [hamming4secded.syndOf] at hs
  rw [hp, hs]
  simp

theorem h4_correct_p0sne (w : Nat) (hp : computeParityInt64 w = 0)
    (hs : hamming4secded.syndOf w ≠ 0) :
    hamming4secded.Correct w = some (2, 0) := by
  simp only [hamming4secded.Correct]
  simp only [hamming4secded.syndOf] at hs
  rw [hp]
  simp [hs]

theorem h4_correct_p1s0 (w : Nat) (hp : computeParityInt64 w = 1)
    (hs : hamming4secded.syndOf w = 0) :
    hamming4secded.Correct w = some (1, w ^^^ 2) := by
  simp only [hamming4secded.Correct]
  simp only [hamming4secded.syndOf] at hs
  rw [hp, hs, show (1 <<< hamming4secded.globalParityBitp) = 2 from by decide]
  simp

theorem h4_correct_p1map (w pos : Nat) (b : Bool) (hp : computeParityInt64 w = 1)
    (hm : hamming4secded.mapSyndromeToBitPos (hamming4secded.syndOf w) = some (pos, b)) :
    hamming4secded.Correct w = some (1, w ^^^ (1 <<< pos)) := by
  have hs : hamming4secded.syndOf w ≠ 0 := by
    intro h0
    rw [h0] at hm
    simp [hamming4secded.mapSyndromeToBitPos] at hm
  simp only [hamming4secded.Correct]
  simp only [hamming4secded.syndOf] at hs hm
  rw [hp, hm]
  simp [hs]

theorem h4_valid_word (packed cbs par : Nat)
    (hplt : packed < 2 ^ 64)
    (hp1c : packed &&& 0x1c = 0)
    (hp2 : packed &&& 2 = 0)
    (hcbs : hamming4secded.computeHammingCheckBits packed = cbs)
    (hpar : computeParityInt64 (packed ||| cbs) = par) :
    (packed ||| cbs) ||| ((par &&& 1) <<< 1) < 2 ^ 64 ∧
    computeParityInt64 ((packed ||| cbs) ||| ((par &&& 1) <<< 1)) = 0 ∧
    hamming4secded.syndOf ((packed ||| cbs) ||| ((par &&& 1) <<< 1)) = 0 := by
  have hcbs_sub : cbs &&& 0x1c = cbs := by rw [← hcbs]; exact h4_check_subset packed
  have hcbs_lt : cbs < 2 ^ 5 := by rw [← hcbs]; exact h4_check_lt packed
  have hdisj1 : packed &&& cbs = 0 := and_eq_zero_subset hp1c hcbs_sub
  have hv2x : packed ||| cbs = packed ^^^ cbs := lor_eq_xor_of_and_eq_zero hdisj1
  have hv2lt : packed ||| cbs < 2 ^ 64 := Nat.or_lt_two_pow hplt (by omega)
  have hparlt : par < 2 := by rw [← hpar]; exact parity_lt _
  have hpar1 : par &&& 1 = par := by
    rw [Nat.and_one_is_mod, Nat.mod_eq_of_lt hparlt]
  have hv2bit1 : (packed ||| cbs) &&& 2 = 0 := by
    rw [Nat.and_distrib_right, hp2, and_eq_zero_of_subset_left hcbs_sub (by decide)]
    decide
  have hpb_cases : (par &&& 1) <<< 1 = 0 ∨ (par &&& 1) <<< 1 = 2 := by
    rcases (show par = 0 ∨ par = 1 by omega) with h | h
    · left
      rw [hpar1, h]
      decide
    · right
      rw [hpar1, h]
      decide
  have hdisj2 : (packed ||| cbs) &&& ((par &&& 1) <<< 1) = 0 := by
    rcases hpb_cases with h | h <;> rw [h]
    · exact Nat.and_zero _
    · exact hv2bit1
  have hwx : (packed ||| cbs) ||| ((par &&& 1) <<< 1) =
      (packed ||| cbs) ^^^ ((par &&& 1) <<< 1) :=
    lor_eq_xor_of_and_eq_zero hdisj2
  have hpb_lt : (par &&& 1) <<< 1 < 2 ^ 64 := by
    rcases hpb_cases with h | h <;> rw [h] <;> norm_num
  have hpb_parity : computeParityInt64 ((par &&& 1) <<< 1) = par := by
    rw [hpar1]
    rcases (show par = 0 ∨ par = 1 by omega) with h | h <;> rw [h] <;> decide
  have hpb_synd : hamming4secded.syndOf ((par &&& 1) <<< 1) = 0 := by
    rw [hpar1]
    rcases (show par = 0 ∨ par = 1 by omega) with h | h <;> rw [h] <;> decide
  refine ⟨Nat.or_lt_two_pow hv2lt hpb_lt, ?_, ?_⟩
  · rw [hwx, parity_xor _ _ hv2lt hpb_lt, hpar, hpb_parity]
    omega
  · rw [hwx, h4_syndOf_xor, hpb_synd, Nat.xor_zero, hv2x, h4_syndOf_xor]
    have hsp : hamming4secded.syndOf packed = cbs >>> 2 := by
      simp only [hamming4secded.syndOf, hamming4secded.getHammingCheckBits]
      rw [hp1c, hcbs]
      simp
    have hsc : hamming4secded.syndOf cbs = cbs >>> 2 := by
      simp only [hamming4secded.syndOf, hamming4secded.getHammingCheckBits]
      have h1e : cbs &&& 0x1e = cbs := by
        calc cbs &&& 0x1e = (cbs &&& 0x1c) &&& 0x1e := by rw [hcbs_sub]
          _ = cbs &&& (0x1c &&& 0x1e) := Nat.and_assoc cbs 0x1c 0x1e
          _ = cbs &&& 0x1c := by rw [show (0x1c : Nat) &&& 0x1e = 0x1c from by decide]
          _ = cbs := hcbs_sub
      rw [h4_check_reserved cbs h1e, hcbs_sub, Nat.mod_eq_of_lt (show cbs < 256 by omega),
        Nat.zero_xor]
    rw [hsp, hsc, Nat.xor_self]

theorem h4_pack_props (v t : Nat) :
    hamming4secded.PackWithCheckBits v t < 2 ^ 64 ∧
    computeParityInt64 (hamming4secded.PackWithCheckBits v t) = 0 ∧
    hamming4secded.syndOf (hamming4secded.PackWithCheckBits v t) = 0 := by
  have hs_low : ((v <<< 5) % 2 ^ 64) &&& (2 ^ 5 - 1) = 0 := low_bits_zero v 5 (by omega)
  have ht1 : (t &&& 1) ≤ 1 := @Nat.and_le_right t 1
  have hpacked_lt : ((v <<< 5) % 2 ^ 64) ||| (t &&& 1) < 2 ^ 64 :=
    Nat.or_lt_two_pow (Nat.mod_lt _ (by norm_num)) (by omega)
  have hpacked_1c : (((v <<< 5) % 2 ^ 64) ||| (t &&& 1)) &&& 0x1c = 0 := by
    rw [Nat.and_distrib_right, and_eq_zero_subset hs_low (by decide)]
    have h2 : (t &&& 1) &&& 0x1c = 0 := by
      rcases (show t &&& 1 = 0 ∨ t &&& 1 = 1 by omega) with h | h <;> rw [h] <;> decide
    rw [h2]
    decide
  have hpacked_2 : (((v <<< 5) % 2 ^ 64) ||| (t &&& 1)) &&& 2 = 0 := by
    rw [Nat.and_distrib_right, and_eq_zero_subset hs_low (by decide)]
    have h2 : (t &&& 1) &&& 2 = 0 := by
      rcases (show t &&& 1 = 0 ∨ t &&& 1 = 1 by omega) with h | h <;> rw [h] <;> decide
    rw [h2]
    decide
  exact h4_valid_word _ _ _ hpacked_lt hpacked_1c hpacked_2 rfl rfl

/-! ### hamming4secded: decision tables -/

theorem h4_synd_tab : ∀ p, p < 8 →
    hamming4secded.syndOf (1 <<< p) = hamming4secded.synFun p := by decide

theorem h4_synFun_inj : ∀ p, p < 8 → ∀ q, q < 8 → p ≠ q →
    hamming4secded.synFun p ≠ hamming4secded.synFun q := by decide

theorem h4_map_synFun : ∀ p, p < 8 → p ≠ 1 →
    ∃ b, hamming4secded.mapSyndromeToBitPos (hamming4secded.synFun p) = some (p, b) := by
  decide

theorem h4_map_inv : ∀ s, s < 8 → 0 < s →
    ∃ pos, pos < 8 ∧ ∃ b, hamming4secded.mapSyndromeToBitPos s = some (pos, b) ∧
      hamming4secded.synFun pos = s := by decide

/-! ### hamming4secded: behaviour of Correct on packed words -/

theorem h4_correct_pack (v t : Nat) :
    hamming4secded.Correct (hamming4secded.PackWithCheckBits v t) =
      some (0, hamming4secded.PackWithCheckBits v t) := by
  obtain ⟨-, hp, hs⟩ := h4_pack_props v t
  exact h4_correct_p0s0 _ hp hs

theorem h4_shift_lt (p : Nat) (hp : p < 64) : (1 : Nat) <<< p < 2 ^ 64 := by
  rw [Nat.one_shiftLeft]
  have h1 : (2 : Nat) ^ p < 2 ^ 64 := Nat.pow_lt_pow_right (by omega) hp
  exact h1

theorem h4_correct_flip (v t p : Nat) (hp : p < 8) :
    hamming4secded.Correct (hamming4secded.PackWithCheckBits v t ^^^ (1 <<< p)) =
      some (1, hamming4secded.PackWithCheckBits v t) := by
  obtain ⟨hwlt, hwpar, hwsynd⟩ := h4_pack_props v t
  have hplt64 : (1 : Nat) <<< p < 2 ^ 64 := h4_shift_lt p (by omega)
  have hparx : computeParityInt64 (hamming4secded.PackWithCheckBits v t ^^^ (1 <<< p)) = 1 := by
    rw [parity_xor _ _ hwlt hplt64, hwpar, parity_two_pow p (by omega)]
  have hsynd : hamming4secded.syndOf (hamming4secded.PackWithCheckBits v t ^^^ (1 <<< p)) =
      hamming4secded.synFun p := by
    rw [h4_syndOf_xor, hwsynd, Nat.zero_xor, h4_synd_tab p hp]
  by_cases hp1 : p = 1
  · subst hp1
    have hs0 : hamming4secded.syndOf
        (hamming4secded.PackWithCheckBits v t ^^^ (1 <<< 1)) = 0 := by
      rw [hsynd]
      decide
    rw [h4_correct_p1s0 _ hparx hs0, show (1 : Nat) <<< 1 = 2 from by decide,
      Nat.xor_assoc, Nat.xor_self, Nat.xor_zero]
  · obtain ⟨b, hb⟩ := h4_map_synFun p hp hp1
    have hm : hamming4secded.mapSyndromeToBitPos
        (hamming4secded.syndOf (hamming4secded.PackWithCheckBits v t ^^^ (1 <<< p))) =
        some (p, b) := by
      rw [hsynd]
      exact hb
    rw [h4_correct_p1map _ p b hparx hm, Nat.xor_assoc, Nat.xor_self, Nat.xor_zero]

theorem h4_correct_two (v t p q : Nat) (hp : p < 8) (hq : q < 8) (hne : p ≠ q) :
    hamming4secded.Correct
        (hamming4secded.PackWithCheckBits v t ^^^ (1 <<< p) ^^^ (1 <<< q)) =
      some (2, 0) := by
  obtain ⟨hwlt, hwpar, hwsynd⟩ := h4_pack_props v t
  have hplt64 : (1 : Nat) <<< p < 2 ^ 64 := h4_shift_lt p (by omega)
  have hqlt64 : (1 : Nat) <<< q < 2 ^ 64 := h4_shift_lt q (by omega)
  have hx1 : hamming4secded.PackWithCheckBits v t ^^^ (1 <<< p) < 2 ^ 64 :=
    Nat.xor_lt_two_pow hwlt hplt64
  have hpar2 : computeParityInt64
      (hamming4secded.PackWithCheckBits v t ^^^ (1 <<< p) ^^^ (1 <<< q)) = 0 := by
    rw [parity_xor _ _ hx1 hqlt64, parity_xor _ _ hwlt hplt64, hwpar,
      parity_two_pow p (by omega), parity_two_pow q (by omega)]
  apply h4_correct_p0sne _ hpar2
  rw [h4_syndOf_xor, h4_syndOf_xor, hwsynd, Nat.zero_xor, h4_synd_tab p hp, h4_synd_tab q hq]
  exact Nat.xor_ne_zero.mpr (h4_synFun_inj p hp q hq hne)

theorem h4_correct_total (w : Nat) : (hamming4secded.Correct w).isSome = true := by
  by_cases hp0 : computeParityInt64 w = 0
  · by_cases hs : hamming4secded.syndOf w = 0
    · rw [h4_correct_p0s0 w hp0 hs]
      rfl
    · rw [h4_correct_p0sne w hp0 hs]
      rfl
  · have hp1 : computeParityInt64 w = 1 := by have := parity_lt w; omega
    by_cases hs : hamming4secded.syndOf w = 0
    · rw [h4_correct_p1s0 w hp1 hs]
      rfl
    · obtain ⟨pos, hposlt, b, hm, -⟩ := h4_map_inv _ (h4_syndOf_lt w) (by omega)
      rw [h4_correct_p1map w pos b hp1 hm]
      rfl

theorem h4_correct_idem (w x : Nat) (hwlt : w < 2 ^ 64)
    (h : hamming4secded.Correct w = some (1, x)) :
    hamming4secded.Correct x = some (0, x) := by
  by_cases hp0 : computeParityInt64 w = 0
  · by_cases hs : hamming4secded.syndOf w = 0
    · rw [h4_correct_p0s0 w hp0 hs] at h
      simp at h
    · rw [h4_correct_p0sne w hp0 hs] at h
      simp at h
  · have hp1 : computeParityInt64 w = 1 := by have := parity_lt w; omega
    by_cases hs : hamming4secded.syndOf w = 0
    · rw [h4_correct_p1s0 w hp1 hs] at h
      have hx : w ^^^ 2 = x := by simpa using h
      subst hx
      apply h4_correct_p0s0
      · rw [parity_xor _ _ hwlt (by norm_num), hp1,
          show computeParityInt64 2 = 1 from by decide]
      · rw [h4_syndOf_xor, hs, show hamming4secded.syndOf 2 = 0 from by decide]
        decide
    · obtain ⟨pos, hposlt, b, hm, hpsyn⟩ := h4_map_inv _ (h4_syndOf_lt w) (by omega)
      rw [h4_correct_p1map w pos b hp1 hm] at h
      have hx : w ^^^ (1 <<< pos) = x := by simpa using h
      subst hx
      have hplt64 : (1 : Nat) <<< pos < 2 ^ 64 := h4_shift_lt pos (by omega)
      apply h4_correct_p0s0
      · rw [parity_xor _ _ hwlt hplt64, hp1, parity_two_pow pos (by omega)]
      · rw [h4_syndOf_xor, h4_synd_tab pos hposlt, hpsyn, Nat.xor_self]

/-! ### hamming11secded: structural lemmas -/

theorem h11_cbs_xor : ∀ a3 < 2, ∀ a2 < 2, ∀ a1 < 2, ∀ a0 < 2,
    ∀ b3 < 2, ∀ b2 < 2, ∀ b1 < 2, ∀ b0 < 2,
    ((((a3 + b3) % 2) <<< hamming11secded.checkBitp3 |||
      ((a2 + b2) % 2) <<< hamming11secded.checkBitp2 |||
      ((a1 + b1) % 2) <<< hamming11secded.checkBitp1 |||
      ((a0 + b0) % 2) <<< hamming11secded.checkBitp0) % 256) =
      ((a3 <<< hamming11secded.checkBitp3 ||| a2 <<< hamming11secded.checkBitp2 |||
        a1 <<< hamming11secded.checkBitp1 ||| a0 <<< hamming11secded.checkBitp0) % 256) ^^^
      ((b3 <<< hamming11secded.checkBitp3 ||| b2 <<< hamming11secded.checkBitp2 |||
        b1 <<< hamming11secded.checkBitp1 ||| b0 <<< hamming11secded.checkBitp0) % 256) := by
  decide

theorem h11_check_xor (x y : Nat) :
    hamming11secded.computeHammingCheckBits (x ^^^ y) =
      hamming11secded.computeHammingCheckBits x ^^^
        hamming11secded.computeHammingCheckBits y := by
  simp only [hamming11secded.computeHammingCheckBits]
  rw [@Nat.and_xor_distrib_right x y 0xfe00, @Nat.and_xor_distrib_right x y 0xf1c0,
    @Nat.and_xor_distrib_right x y 0xcd81, @Nat.and_xor_distrib_right x y 0xab41]
  rw [cparity_xor _ _ (Nat.and_lt_two_pow x (by norm_num)) (Nat.and_lt_two_pow y (by norm_num)),
    cparity_xor _ _ (Nat.and_lt_two_pow x (by norm_num)) (Nat.and_lt_two_pow y (by norm_num)),
    cparity_xor _ _ (Nat.and_lt_two_pow x (by norm_num)) (Nat.and_lt_two_pow y (by norm_num)),
    cparity_xor _ _ (Nat.and_lt_two_pow x (by norm_num)) (Nat.and_lt_two_pow y (by norm_num))]
  exact h11_cbs_xor _ (cparity_lt _) _ (cparity_lt _) _ (cparity_lt _) _ (cparity_lt _)
    _ (cparity_lt _) _ (cparity_lt _) _ (cparity_lt _) _ (cparity_lt _)

theorem h11_cbs_subset : ∀ a3 < 2, ∀ a2 < 2, ∀ a1 < 2, ∀ a0 < 2,
    ((a3 <<< hamming11secded.checkBitp3 ||| a2 <<< hamming11secded.checkBitp2 |||
      a1 <<< hamming11secded.checkBitp1 ||| a0 <<< hamming11secded.checkBitp0) % 256) &&& 0x3c =
      ((a3 <<< hamming11secded.checkBitp3 ||| a2 <<< hamming11secded.checkBitp2 |||
        a1 <<< hamming11secded.checkBitp1 ||| a0 <<< hamming11secded.checkBitp0) % 256) := by
  decide

theorem h11_check_subset (x : Nat) :
    hamming11secded.computeHammingCheckBits x &&& 0x3c =
      hamming11secded.computeHammingCheckBits x := by
  simp only [hamming11secded.computeHammingCheckBits]
  exact h11_cbs_subset _ (cparity_lt _) _ (cparity_lt _) _ (cparity_lt _) _ (cparity_lt _)

theorem h11_cbs_lt : ∀ a3 < 2, ∀ a2 < 2, ∀ a1 < 2, ∀ a0 < 2,
    ((a3 <<< hamming11secded.checkBitp3 ||| a2 <<< hamming11secded.checkBitp2 |||
      a1 <<< hamming11secded.checkBitp1 ||| a0 <<< hamming11secded.checkBitp0) % 256) < 2 ^ 6 := by
  decide

theorem h11_check_lt (x : Nat) : hamming11secded.computeHammingCheckBits x < 2 ^ 6 := by
  simp only [hamming11secded.computeHammingCheckBits]
  exact h11_cbs_lt _ (cparity_lt _) _ (cparity_lt _) _ (cparity_lt _) _ (cparity_lt _)

theorem h11_check_reserved (y : Nat) (hy : y &&& 0x3e = y) :
    hamming11secded.computeHammingCheckBits y = 0 := by
  have m3 : y &&& 0xfe00 = 0 := and_eq_zero_of_subset_left hy (by decide)
  have m2 : y &&& 0xf1c0 = 0 := and_eq_zero_of_subset_left hy (by decide)
  have m1 : y &&& 0xcd81 = 0 := and_eq_zero_of_subset_left hy (by decide)
  have m0 : y &&& 0xab41 = 0 := and_eq_zero_of_subset_left hy (by decide)
  simp only [hamming11secded.computeHammingCheckBits]
  rw [m3, m2, m1, m0]
  decide

theorem h11_get_xor (x y : Nat) :
    hamming11secded.getHammingCheckBits (x ^^^ y) =
      hamming11secded.getHammingCheckBits x ^^^ hamming11secded.getHammingCheckBits y := by
  simp only [hamming11secded.getHammingCheckBits]
  rw [@Nat.and_xor_distrib_right x y 0x3c]
  have hx : x &&& 0x3c < 256 := by have := @Nat.and_le_right x 0x3c; omega
  have hy : y &&& 0x3c < 256 := by have := @Nat.and_le_right y 0x3c; omega
  have hxy : (x &&& 0x3c) ^^^ (y &&& 0x3c) < 256 := by
    have h8 : (256 : Nat) = 2 ^ 8 := by norm_num
    rw [h8]
    exact Nat.xor_lt_two_pow (by omega) (by omega)
  rw [Nat.mod_eq_of_lt hxy, Nat.mod_eq_of_lt hx, Nat.mod_eq_of_lt hy]

theorem h11_syndOf_xor (x y : Nat) :
    hamming11secded.syndOf (x ^^^ y) =
      hamming11secded.syndOf x ^^^ hamming11secded.syndOf y := by
  simp only [hamming11secded.syndOf]
  rw [h11_check_xor, h11_get_xor, xor_mix, xor_shiftRight]

theorem h11_syndOf_lt (x : Nat) : hamming11secded.syndOf x < 16 := by
  simp only [hamming11secded.syndOf, hamming11secded.getHammingCheckBits]
  have hc := h11_check_lt x
  have hg : (x &&& 0x3c) % 256 < 2 ^ 6 := by have := @Nat.and_le_right x 0x3c; omega
  have hxor := Nat.xor_lt_two_pow hc hg
  rw [Nat.shiftRight_eq_div_pow]
  omega

theorem h11_correct_p0s0 (w : Nat) (hp : computeParityInt64 w = 0)
    (hs : hamming11secded.syndOf w = 0) :
    hamming11secded.Correct w = some (0, w) := by
  simp only [hamming11secded.Correct]
  simp only [hamming11secded.syndOf] at hs
  rw [hp, hs]
  simp

theorem h11_correct_p0sne (w : Nat) (hp : computeParityInt64 w = 0)
    (hs : hamming11secded.syndOf w ≠ 0) :
    hamming11secded.Correct w = some (2, 0) := by
  simp only [hamming11secded.Correct]
  simp only [hamming11secded.syndOf] at hs
  rw [hp]
  simp [hs]

theorem h11_correct_p1s0 (w : Nat) (hp : computeParityInt64 w = 1)
    (hs : hamming11secded.syndOf w = 0) :
    hamming11secded.Correct w = some (1, w ^^^ 2) := by
  simp only [hamming11secded.Correct]
  simp only [hamming11secded.syndOf] at hs
  rw [hp, hs, show (1 <<< hamming11secded.globalParityBitp) = 2 from by decide]
  simp

theorem h11_correct_p1map (w pos : Nat) (b : Bool) (hp : computeParityInt64 w = 1)
    (hm : hamming11secded.mapSyndromeToBitPos (hamming11secded.syndOf w) = some (pos, b)) :
    hamming11secded.Correct w = some (1, w ^^^ (1 <<< pos)) := by
  have hs : hamming11secded.syndOf w ≠ 0 := by
    intro h0
    rw [h0] at hm
    simp [hamming11secded.mapSyndromeToBitPos] at hm
  simp only [hamming11secded.Correct]
  simp only [hamming11secded.syndOf] at hs hm
  rw [hp, hm]
  simp [hs]

theorem h11_valid_word (packed cbs par : Nat)
    (hplt : packed < 2 ^ 64)
    (hp3c : packed &&& 0x3c = 0)
    (hp2 : packed &&& 2 = 0)
    (hcbs : hamming11secded.computeHammingCheckBits packed = cbs)
    (hpar : computeParityInt64 (packed ||| cbs) = par) :
    (packed ||| cbs) ||| ((par &&& 1) <<< 1) < 2 ^ 64 ∧
    computeParityInt64 ((packed ||| cbs) ||| ((par &&& 1) <<< 1)) = 0 ∧
    hamming11secded.syndOf ((packed ||| cbs) ||| ((par &&& 1) <<< 1)) = 0 := by
  have hcbs_sub : cbs &&& 0x3c = cbs := by rw [← hcbs]; exact h11_check_subset packed
  have hcbs_lt : cbs < 2 ^ 6 := by rw [← hcbs]; exact h11_check_lt packed
  have hdisj1 : packed &&& cbs = 0 := and_eq_zero_subset hp3c hcbs_sub
  have hv2x : packed ||| cbs = packed ^^^ cbs := lor_eq_xor_of_and_eq_zero hdisj1
  have hv2lt : packed ||| cbs < 2 ^ 64 := Nat.or_lt_two_pow hplt (by omega)
  have hparlt : par < 2 := by rw [← hpar]; exact parity_lt _
  have hpar1 : par &&& 1 = par := by
    rw [Nat.and_one_is_mod, Nat.mod_eq_of_lt hparlt]
  have hv2bit1 : (packed ||| cbs) &&& 2 = 0 := by
    rw [Nat.and_distrib_right, hp2, and_eq_zero_of_subset_left hcbs_sub (by decide)]
    decide
  have hpb_cases : (par &&& 1) <<< 1 = 0 ∨ (par &&& 1) <<< 1 = 2 := by
    rcases (show par = 0 ∨ par = 1 by omega) with h | h
    · left
      rw [hpar1, h]
      decide
    · right
      rw [hpar1, h]
      decide
  have hdisj2 : (packed ||| cbs) &&& ((par &&& 1) <<< 1) = 0 := by
    rcases hpb_cases with h | h <;> rw [h]
    · exact Nat.and_zero _
    · exact hv2bit1
  have hwx : (packed ||| cbs) ||| ((par &&& 1) <<< 1) =
      (packed ||| cbs) ^^^ ((par &&& 1) <<< 1) :=
    lor_eq_xor_of_and_eq_zero hdisj2
  have hpb_lt : (par &&& 1) <<< 1 < 2 ^ 64 := by
    rcases hpb_cases with h | h <;> rw [h] <;> norm_num
  have hpb_parity : computeParityInt64 ((par &&& 1) <<< 1) = par := by
    rw [hpar1]
    rcases (show par = 0 ∨ par = 1 by omega) with h | h <;> rw [h] <;> decide
  have hpb_synd : hamming11secded.syndOf ((par &&& 1) <<< 1) = 0 := by
    rw [hpar1]
    rcases (show par = 0 ∨ par = 1 by omega) with h | h <;> rw [h] <;> decide
  refine ⟨Nat.or_lt_two_pow hv2lt hpb_lt, ?_, ?_⟩
  · rw [hwx, parity_xor _ _ hv2lt hpb_lt, hpar, hpb_parity]
    omega
  · rw [hwx, h11_syndOf_xor, hpb_synd, Nat.xor_zero, hv2x, h11_syndOf_xor]
    have hsp : hamming11secded.syndOf packed = cbs >>> 2 := by
      simp only [hamming11secded.syndOf, hamming11secded.getHammingCheckBits]
      rw [hp3c, hcbs]
      simp
    have hsc : hamming11secded.syndOf cbs = cbs >>> 2 := by
      simp only [hamming11secded.syndOf, hamming11secded.getHammingCheckBits]
      have h3e : cbs &&& 0x3e = cbs := by
        calc cbs &&& 0x3e = (cbs &&& 0x3c) &&& 0x3e := by rw [hcbs_sub]
          _ = cbs &&& (0x3c &&& 0x3e) := Nat.and_assoc cbs 0x3c 0x3e
          _ = cbs &&& 0x3c := by rw [show (0x3c : Nat) &&& 0x3e = 0x3c from by decide]
          _ = cbs := hcbs_sub
      rw [h11_check_reserved cbs h3e, hcbs_sub, Nat.mod_eq_of_lt (show cbs < 256 by omega),
        Nat.zero_xor]
    rw [hsp, hsc, Nat.xor_self]

theorem h11_pack_props (v t : Nat) :
    hamming11secded.PackWithCheckBits v t < 2 ^ 64 ∧
    computeParityInt64 (hamming11secded.PackWithCheckBits v t) = 0 ∧
    hamming11secded.syndOf (hamming11secded.PackWithCheckBits v t) = 0 := by
  have hs_low : ((v <<< 6) % 2 ^ 64) &&& (2 ^ 6 - 1) = 0 := low_bits_zero v 6 (by omega)
  have ht1 : (t &&& 1) ≤ 1 := @Nat.and_le_right t 1
  have hpacked_lt : ((v <<< 6) % 2 ^ 64) ||| (t &&& 1) < 2 ^ 64 :=
    Nat.or_lt_two_pow (Nat.mod_lt _ (by norm_num)) (by omega)
  have hpacked_3c : (((v <<< 6) % 2 ^ 64) ||| (t &&& 1)) &&& 0x3c = 0 := by
    rw [Nat.and_distrib_right, and_eq_zero_subset hs_low (by decide)]
    have h2 : (t &&& 1) &&& 0x3c = 0 := by
      rcases (show t &&& 1 = 0 ∨ t &&& 1 = 1 by omega) with h | h <;> rw [h] <;> decide
    rw [h2]
    decide
  have hpacked_2 : (((v <<< 6) % 2 ^ 64) ||| (t &&& 1)) &&& 2 = 0 := by
    rw [Nat.and_distrib_right, and_eq_zero_subset hs_low (by decide)]
    have h2 : (t &&& 1) &&& 2 = 0 := by
      rcases (show t &&& 1 = 0 ∨ t &&& 1 = 1 by omega) with h | h <;> rw [h] <;> decide
    rw [h2]
    decide
  exact h11_valid_word _ _ _ hpacked_lt hpacked_3c hpacked_2 rfl rfl

/-! ### hamming11secded: decision tables -/

theorem h11_synd_tab : ∀ p, p < 16 →
    hamming11secded.syndOf (1 <<< p) = hamming11secded.synFun p := by decide

theorem h11_synFun_inj : ∀ p, p < 16 → ∀ q, q < 16 → p ≠ q →
    hamming11secded.synFun p ≠ hamming11secded.synFun q := by decide

theorem h11_map_synFun : ∀ p, p < 16 → p ≠ 1 →
    ∃ b, hamming11secded.mapSyndromeToBitPos (hamming11secded.synFun p) = some (p, b) := by
  decide

theorem h11_map_inv : ∀ s, s < 16 → 0 < s →
    ∃ pos, pos < 16 ∧ ∃ b, hamming11secded.mapSyndromeToBitPos s = some (pos, b) ∧
      hamming11secded.synFun pos = s := by decide

/-! ### hamming11secded: behaviour of Correct on packed words -/

theorem h11_correct_pack (v t : Nat) :
    hamming11secded.Correct (hamming11secded.PackWithCheckBits v t) =
      some (0, hamming11secded.PackWithCheckBits v t) := by
  obtain ⟨-, hp, hs⟩ := h11_pack_props v t
  exact h11_correct_p0s0 _ hp hs

theorem h11_correct_flip (v t p : Nat) (hp : p < 16) :
    hamming11secded.Correct (hamming11secded.PackWithCheckBits v t ^^^ (1 <<< p)) =
      some (1, hamming11secded.PackWithCheckBits v t) := by
  obtain ⟨hwlt, hwpar, hwsynd⟩ := h11_pack_props v t
  have hplt64 : (1 : Nat) <<< p < 2 ^ 64 := h4_shift_lt p (by omega)
  have hparx : computeParityInt64 (hamming11secded.PackWithCheckBits v t ^^^ (1 <<< p)) = 1 := by
    rw [parity_xor _ _ hwlt hplt64, hwpar, parity_two_pow p (by omega)]
  have hsynd : hamming11secded.syndOf (hamming11secded.PackWithCheckBits v t ^^^ (1 <<< p)) =
      hamming11secded.synFun p := by
    rw [h11_syndOf_xor, hwsynd, Nat.zero_xor, h11_synd_tab p hp]
  by_cases hp1 : p = 1
  · subst hp1
    have hs0 : hamming11secded.syndOf
        (hamming11secded.PackWithCheckBits v t ^^^ (1 <<< 1)) = 0 := by
      rw [hsynd]
      decide
    rw [h11_correct_p1s0 _ hparx hs0, show (1 : Nat) <<< 1 = 2 from by decide,
      Nat.xor_assoc, Nat.xor_self, Nat.xor_zero]
  · obtain ⟨b, hb⟩ := h11_map_synFun p hp hp1
    have hm : hamming11secded.mapSyndromeToBitPos
        (hamming11secded.syndOf (hamming11secded.PackWithCheckBits v t ^^^ (1 <<< p))) =
        some (p, b) := by
      rw [hsynd]
      exact hb
    rw [h11_correct_p1map _ p b hparx hm, Nat.xor_assoc, Nat.xor_self, Nat.xor_zero]

theorem h11_correct_two (v t p q : Nat) (hp : p < 16) (hq : q < 16) (hne : p ≠ q) :
    hamming11secded.Correct
        (hamming11secded.PackWithCheckBits v t ^^^ (1 <<< p) ^^^ (1 <<< q)) =
      some (2, 0) := by
  obtain ⟨hwlt, hwpar, hwsynd⟩ := h11_pack_props v t
  have hplt64 : (1 : Nat) <<< p < 2 ^ 64 := h4_shift_lt p (by omega)
  have hqlt64 : (1 : Nat) <<< q < 2 ^ 64 := h4_shift_lt q (by omega)
  have hx1 : hamming11secded.PackWithCheckBits v t ^^^ (1 <<< p) < 2 ^ 64 :=
    Nat.xor_lt_two_pow hwlt hplt64
  have hpar2 : computeParityInt64
      (hamming11secded.PackWithCheckBits v t ^^^ (1 <<< p) ^^^ (1 <<< q)) = 0 := by
    rw [parity_xor _ _ hx1 hqlt64, parity_xor _ _ hwlt hplt64, hwpar,
      parity_two_pow p (by omega), parity_two_pow q (by omega)]
  apply h11_correct_p0sne _ hpar2
  rw [h11_syndOf_xor, h11_syndOf_xor, hwsynd, Nat.zero_xor, h11_synd_tab p hp,
    h11_synd_tab q hq]
  exact Nat.xor_ne_zero.mpr (h11_synFun_inj p hp q hq hne)

theorem h11_correct_total (w : Nat) : (hamming11secded.Correct w).isSome = true := by
  by_cases hp0 : computeParityInt64 w = 0
  · by_cases hs : hamming11secded.syndOf w = 0
    · rw [h11_correct_p0s0 w hp0 hs]
      rfl
    · rw [h11_correct_p0sne w hp0 hs]
      rfl
  · have hp1 : computeParityInt64 w = 1 := by have := parity_lt w; omega
    by_cases hs : hamming11secded.syndOf w = 0
    · rw [h11_correct_p1s0 w hp1 hs]
      rfl
    · obtain ⟨pos, hposlt, b, hm, -⟩ := h11_map_inv _ (h11_syndOf_lt w) (by omega)
      rw [h11_correct_p1map w pos b hp1 hm]
      rfl

theorem h11_correct_idem (w x : Nat) (hwlt : w < 2 ^ 64)
    (h : hamming11secded.Correct w = some (1, x)) :
    hamming11secded.Correct x = some (0, x) := by
  by_cases hp0 : computeParityInt64 w = 0
  · by_cases hs : hamming11secded.syndOf w = 0
    · rw [h11_correct_p0s0 w hp0 hs] at h
      simp at h
    · rw [h11_correct_p0sne w hp0 hs] at h
      simp at h
  · have hp1 : computeParityInt64 w = 1 := by have := parity_lt w; omega
    by_cases hs : hamming11secded.syndOf w = 0
    · rw [h11_correct_p1s0 w hp1 hs] at h
      have hx : w ^^^ 2 = x := by simpa using h
      subst hx
      apply h11_correct_p0s0
      · rw [parity_xor _ _ hwlt (by norm_num), hp1,
          show computeParityInt64 2 = 1 from by decide]
      · rw [h11_syndOf_xor, hs, show hamming11secded.syndOf 2 = 0 from by decide]
        decide
    · obtain ⟨pos, hposlt, b, hm, hpsyn⟩ := h11_map_inv _ (h11_syndOf_lt w) (by omega)
      rw [h11_correct_p1map w pos b hp1 hm] at h
      have hx : w ^^^ (1 <<< pos) = x := by simpa using h
      subst hx
      have hplt64 : (1 : Nat) <<< pos < 2 ^ 64 := h4_shift_lt pos (by omega)
      apply h11_correct_p0s0
      · rw [parity_xor _ _ hwlt hplt64, hp1, parity_two_pow pos (by omega)]
      · rw [h11_syndOf_xor, h11_synd_tab pos hposlt, hpsyn, Nat.xor_self]

/-! ### hamming57secded: structural lemmas -/

theorem h57_cbs_xor : ∀ a5 < 2, ∀ a4 < 2, ∀ a3 < 2, ∀ a2 < 2, ∀ a1 < 2, ∀ a0 < 2,
    ∀ b5 < 2, ∀ b4 < 2, ∀ b3 < 2, ∀ b2 < 2, ∀ b1 < 2, ∀ b0 < 2,
    ((((a5 + b5) % 2) <<< hamming57secded.checkBitp5 |||
      ((a4 + b4) % 2) <<< hamming57secded.checkBitp4 |||
      ((a3 + b3) % 2) <<< hamming57secded.checkBitp3 |||
      ((a2 + b2) % 2) <<< hamming57secded.checkBitp2 |||
      ((a1 + b1) % 2) <<< hamming57secded.checkBitp1 |||
      ((a0 + b0) % 2) <<< hamming57secded.checkBitp0) % 256) =
      ((a5 <<< hamming57secded.checkBitp5 ||| a4 <<< hamming57secded.checkBitp4 |||
        a3 <<< hamming57secded.checkBitp3 ||| a2 <<< hamming57secded.checkBitp2 |||
        a1 <<< hamming57secded.checkBitp1 ||| a0 <<< hamming57secded.checkBitp0) % 256) ^^^
      ((b5 <<< hamming57secded.checkBitp5 ||| b4 <<< hamming57secded.checkBitp4 |||
        b3 <<< hamming57secded.checkBitp3 ||| b2 <<< hamming57secded.checkBitp2 |||
        b1 <<< hamming57secded.checkBitp1 ||| b0 <<< hamming57secded.checkBitp0) % 256) := by
  decide

theorem h57_check_xor (x y : Nat) :
    hamming57secded.computeHammingCheckBits (x ^^^ y) =
      hamming57secded.computeHammingCheckBits x ^^^
        hamming57secded.computeHammingCheckBits y := by
  simp only [hamming57secded.computeHammingCheckBits]
  rw [@Nat.and_xor_distrib_right x y 0xfffffffe00000000,
    @Nat.and_xor_distrib_right x y 0xffff0001fffc0000,
    @Nat.and_xor_distrib_right x y 0xff00ff01fe03f800,
    @Nat.and_xor_distrib_right x y 0xf0f0f0f1e1e3c700,
    @Nat.and_xor_distrib_right x y 0xcccccccd999b3601,
    @Nat.and_xor_distrib_right x y 0xaaaaaaab5556ad01]
  rw [cparity_xor _ _ (Nat.and_lt_two_pow x (by norm_num)) (Nat.and_lt_two_pow y (by norm_num)),
    cparity_xor _ _ (Nat.and_lt_two_pow x (by norm_num)) (Nat.and_lt_two_pow y (by norm_num)),
    cparity_xor _ _ (Nat.and_lt_two_pow x (by norm_num)) (Nat.and_lt_two_pow y (by norm_num)),
    cparity_xor _ _ (Nat.and_lt_two_pow x (by norm_num)) (Nat.and_lt_two_pow y (by norm_num)),
    cparity_xor _ _ (Nat.and_lt_two_pow x (by norm_num)) (Nat.and_lt_two_pow y (by norm_num)),
    cparity_xor _ _ (Nat.and_lt_two_pow x (by norm_num)) (Nat.and_lt_two_pow y (by norm_num))]
  exact h57_cbs_xor _ (cparity_lt _) _ (cparity_lt _) _ (cparity_lt _) _ (cparity_lt _)
    _ (cparity_lt _) _ (cparity_lt _) _ (cparity_lt _) _ (cparity_lt _) _ (cparity_lt _)
    _ (cparity_lt _) _ (cparity_lt _) _ (cparity_lt _)

theorem h57_cbs_subset : ∀ a5 < 2, ∀ a4 < 2, ∀ a3 < 2, ∀ a2 < 2, ∀ a1 < 2, ∀ a0 < 2,
    ((a5 <<< hamming57secded.checkBitp5 ||| a4 <<< hamming57secded.checkBitp4 |||
      a3 <<< hamming57secded.checkBitp3 ||| a2 <<< hamming57secded.checkBitp2 |||
      a1 <<< hamming57secded.checkBitp1 ||| a0 <<< hamming57secded.checkBitp0) % 256) &&& 0xfc =
      ((a5 <<< hamming57secded.checkBitp5 ||| a4 <<< hamming57secded.checkBitp4 |||
        a3 <<< hamming57secded.checkBitp3 ||| a2 <<< hamming57secded.checkBitp2 |||
        a1 <<< hamming57secded.checkBitp1 ||| a0 <<< hamming57secded.checkBitp0) % 256) := by
  decide

theorem h57_check_subset (x : Nat) :
    hamming57secded.computeHammingCheckBits x &&& 0xfc =
      hamming57secded.computeHammingCheckBits x := by
  simp only [hamming57secded.computeHammingCheckBits]
  exact h57_cbs_subset _ (cparity_lt _) _ (cparity_lt _) _ (cparity_lt _) _ (cparity_lt _)
    _ (cparity_lt _) _ (cparity_lt _)

theorem h57_cbs_lt : ∀ a5 < 2, ∀ a4 < 2, ∀ a3 < 2, ∀ a2 < 2, ∀ a1 < 2, ∀ a0 < 2,
    ((a5 <<< hamming57secded.checkBitp5 ||| a4 <<< hamming57secded.checkBitp4 |||
      a3 <<< hamming57secded.checkBitp3 ||| a2 <<< hamming57secded.checkBitp2 |||
      a1 <<< hamming57secded.checkBitp1 ||| a0 <<< hamming57secded.checkBitp0) % 256) < 2 ^ 8 := by
  decide

theorem h57_check_lt (x : Nat) : hamming57secded.computeHammingCheckBits x < 2 ^ 8 := by
  simp only [hamming57secded.computeHammingCheckBits]
  exact h57_cbs_lt _ (cparity_lt _) _ (cparity_lt _) _ (cparity_lt _) _ (cparity_lt _)
    _ (cparity_lt _) _ (cparity_lt _)

theorem h57_check_reserved (y : Nat) (hy : y &&& 0xfe = y) :
    hamming57secded.computeHammingCheckBits y = 0 := by
  have m5 : y &&& 0xfffffffe00000000 = 0 := and_eq_zero_of_subset_left hy (by decide)
  have m4 : y &&& 0xffff0001fffc0000 = 0 := and_eq_zero_of_subset_left hy (by decide)
  have m3 : y &&& 0xff00ff01fe03f800 = 0 := and_eq_zero_of_subset_left hy (by decide)
  have m2 : y &&& 0xf0f0f0f1e1e3c700 = 0 := and_eq_zero_of_subset_left hy (by decide)
  have m1 : y &&& 0xcccccccd999b3601 = 0 := and_eq_zero_of_subset_left hy (by decide)
  have m0 : y &&& 0xaaaaaaab5556ad01 = 0 := and_eq_zero_of_subset_left hy (by decide)
  simp only [hamming57secded.computeHammingCheckBits]
  rw [m5, m4, m3, m2, m1, m0]
  decide

theorem h57_get_xor (x y : Nat) :
    hamming57secded.getHammingCheckBits (x ^^^ y) =
      hamming57secded.getHammingCheckBits x ^^^ hamming57secded.getHammingCheckBits y := by
  simp only [hamming57secded.getHammingCheckBits]
  rw [@Nat.and_xor_distrib_right x y 0xfc]
  have hx : x &&& 0xfc < 256 := by have := @Nat.and_le_right x 0xfc; omega
  have hy : y &&& 0xfc < 256 := by have := @Nat.and_le_right y 0xfc; omega
  have hxy : (x &&& 0xfc) ^^^ (y &&& 0xfc) < 256 := by
    have h8 : (256 : Nat) = 2 ^ 8 := by norm_num
    rw [h8]
    exact Nat.xor_lt_two_pow (by omega) (by omega)
  rw [Nat.mod_eq_of_lt hxy, Nat.mod_eq_of_lt hx, Nat.mod_eq_of_lt hy]

theorem h57_syndOf_xor (x y : Nat) :
    hamming57secded.syndOf (x ^^^ y) =
      hamming57secded.syndOf x ^^^ hamming57secded.syndOf y := by
  simp only [hamming57secded.syndOf]
  rw [h57_check_xor, h57_get_xor, xor_mix, xor_shiftRight]

theorem h57_syndOf_lt (x : Nat) : hamming57secded.syndOf x < 64 := by
  simp only [hamming57secded.syndOf, hamming57secded.getHammingCheckBits]
  have hc := h57_check_lt x
  have hg : (x &&& 0xfc) % 256 < 2 ^ 8 := by have := @Nat.and_le_right x 0xfc; omega
  have hxor := Nat.xor_lt_two_pow hc hg
  rw [Nat.shiftRight_eq_div_pow]
  omega

theorem h57_correct_p0s0 (w : Nat) (hp : computeParityInt64 w = 0)
    (hs : hamming57secded.syndOf w = 0) :
    hamming57secded.Correct w = some (0, w) := by
  simp only [hamming57secded.Correct]
  simp only [hamming57secded.syndOf] at hs
  rw [hp, hs]
  simp

theorem h57_correct_p0sne (w : Nat) (hp : computeParityInt64 w = 0)
    (hs : hamming57secded.syndOf w ≠ 0) :
    hamming57secded.Correct w = some (2, 0) := by
  simp only [hamming57secded.Correct]
  simp only [hamming57secded.syndOf] at hs
  rw [hp]
  simp [hs]

theorem h57_correct_p1s0 (w : Nat) (hp : computeParityInt64 w = 1)
    (hs : hamming57secded.syndOf w = 0) :
    hamming57secded.Correct w = some (1, w ^^^ 2) := by
  simp only [hamming57secded.Correct]
  simp only [hamming57secded.syndOf] at hs
  rw [hp, hs, show (1 <<< hamming57secded.globalParityBitp) = 2 from by decide]
  simp

theorem h57_correct_p1map (w pos : Nat) (b : Bool) (hp : computeParityInt64 w = 1)
    (hm : hamming57secded.mapSyndromeToBitPos (hamming57secded.syndOf w) = some (pos, b)) :
    hamming57secded.Correct w = some (1, w ^^^ (1 <<< pos)) := by
  have hs : hamming57secded.syndOf w ≠ 0 := by
    intro h0
    rw [h0] at hm
    simp [hamming57secded.mapSyndromeToBitPos] at hm
  simp only [hamming57secded.Correct]
  simp only [hamming57secded.syndOf] at hs hm
  rw [hp, hm]
  simp [hs]

theorem h57_valid_word (packed cbs par : Nat)
    (hplt : packed < 2 ^ 64)
    (hpfc : packed &&& 0xfc = 0)
    (hp2 : packed &&& 2 = 0)
    (hcbs : hamming57secded.computeHammingCheckBits packed = cbs)
    (hpar : computeParityInt64 (packed ||| cbs) = par) :
    (packed ||| cbs) ||| ((par &&& 1) <<< 1) < 2 ^ 64 ∧
    computeParityInt64 ((packed ||| cbs) ||| ((par &&& 1) <<< 1)) = 0 ∧
    hamming57secded.syndOf ((packed ||| cbs) ||| ((par &&& 1) <<< 1)) = 0 := by
  have hcbs_sub : cbs &&& 0xfc = cbs := by rw [← hcbs]; exact h57_check_subset packed
  have hcbs_lt : cbs < 2 ^ 8 := by rw [← hcbs]; exact h57_check_lt packed
  have hdisj1 : packed &&& cbs = 0 := and_eq_zero_subset hpfc hcbs_sub
  have hv2x : packed ||| cbs = packed ^^^ cbs := lor_eq_xor_of_and_eq_zero hdisj1
  have hv2lt : packed ||| cbs < 2 ^ 64 := Nat.or_lt_two_pow hplt (by omega)
  have hparlt : par < 2 := by rw [← hpar]; exact parity_lt _
  have hpar1 : par &&& 1 = par := by
    rw [Nat.and_one_is_mod, Nat.mod_eq_of_lt hparlt]
  have hv2bit1 : (packed ||| cbs) &&& 2 = 0 := by
    rw [Nat.and_distrib_right, hp2, and_eq_zero_of_subset_left hcbs_sub (by decide)]
    decide
  have hpb_cases : (par &&& 1) <<< 1 = 0 ∨ (par &&& 1) <<< 1 = 2 := by
    rcases (show par = 0 ∨ par = 1 by omega) with h | h
    · left
      rw [hpar1, h]
      decide
    · right
      rw [hpar1, h]
      decide
  have hdisj2 : (packed ||| cbs) &&& ((par &&& 1) <<< 1) = 0 := by
    rcases hpb_cases with h | h <;> rw [h]
    · exact Nat.and_zero _
    · exact hv2bit1
  have hwx : (packed ||| cbs) ||| ((par &&& 1) <<< 1) =
      (packed ||| cbs) ^^^ ((par &&& 1) <<< 1) :=
    lor_eq_xor_of_and_eq_zero hdisj2
  have hpb_lt : (par &&& 1) <<< 1 < 2 ^ 64 := by
    rcases hpb_cases with h | h <;> rw [h] <;> norm_num
  have hpb_parity : computeParityInt64 ((par &&& 1) <<< 1) = par := by
    rw [hpar1]
    rcases (show par = 0 ∨ par = 1 by omega) with h | h <;> rw [h] <;> decide
  have hpb_synd : hamming57secded.syndOf ((par &&& 1) <<< 1) = 0 := by
    rw [hpar1]
    rcases (show par = 0 ∨ par = 1 by omega) with h | h <;> rw [h] <;> decide
  refine ⟨Nat.or_lt_two_pow hv2lt hpb_lt, ?_, ?_⟩
  · rw [hwx, parity_xor _ _ hv2lt hpb_lt, hpar, hpb_parity]
    omega
  · rw [hwx, h57_syndOf_xor, hpb_synd, Nat.xor_zero, hv2x, h57_syndOf_xor]
    have hsp : hamming57secded.syndOf packed = cbs >>> 2 := by
      simp only [hamming57secded.syndOf, hamming57secded.getHammingCheckBits]
      rw [hpfc, hcbs]
      simp
    have hsc : hamming57secded.syndOf cbs = cbs >>> 2 := by
      simp only [hamming57secded.syndOf, hamming57secded.getHammingCheckBits]
      have hfe : cbs &&& 0xfe = cbs := by
        calc cbs &&& 0xfe = (cbs &&& 0xfc) &&& 0xfe := by rw [hcbs_sub]
          _ = cbs &&& (0xfc &&& 0xfe) := Nat.and_assoc cbs 0xfc 0xfe
          _ = cbs &&& 0xfc := by rw [show (0xfc : Nat) &&& 0xfe = 0xfc from by decide]
          _ = cbs := hcbs_sub
      rw [h57_check_reserved cbs hfe, hcbs_sub, Nat.mod_eq_of_lt (show cbs < 256 by omega),
        Nat.zero_xor]
    rw [hsp, hsc, Nat.xor_self]

theorem h57_pack_props (v t : Nat) :
    hamming57secded.PackWithCheckBits v t < 2 ^ 64 ∧
    computeParityInt64 (hamming57secded.PackWithCheckBits v t) = 0 ∧
    hamming57secded.syndOf (hamming57secded.PackWithCheckBits v t) = 0 := by
  have hs_low : ((v <<< 8) % 2 ^ 64) &&& (2 ^ 8 - 1) = 0 := low_bits_zero v 8 (by omega)
  have ht1 : (t &&& 1) ≤ 1 := @Nat.and_le_right t 1
  have hpacked_lt : ((v <<< 8) % 2 ^ 64) ||| (t &&& 1) < 2 ^ 64 :=
    Nat.or_lt_two_pow (Nat.mod_lt _ (by norm_num)) (by omega)
  have hpacked_fc : (((v <<< 8) % 2 ^ 64) ||| (t &&& 1)) &&& 0xfc = 0 := by
    rw [Nat.and_distrib_right, and_eq_zero_subset hs_low (by decide)]
    have h2 : (t &&& 1) &&& 0xfc = 0 := by
      rcases (show t &&& 1 = 0 ∨ t &&& 1 = 1 by omega) with h | h <;> rw [h] <;> decide
    rw [h2]
    decide
  have hpacked_2 : (((v <<< 8) % 2 ^ 64) ||| (t &&& 1)) &&& 2 = 0 := by
    rw [Nat.and_distrib_right, and_eq_zero_subset hs_low (by decide)]
    have h2 : (t &&& 1) &&& 2 = 0 := by
      rcases (show t &&& 1 = 0 ∨ t &&& 1 = 1 by omega) with h | h <;> rw [h] <;> decide
    rw [h2]
    decide
  exact h57_valid_word _ _ _ hpacked_lt hpacked_fc hpacked_2 rfl rfl

/-! ### hamming57secded: decision tables -/

theorem h57_synd_tab : ∀ p, p < 64 →
    hamming57secded.syndOf (1 <<< p) = hamming57secded.synFun p := by decide

theorem h57_synFun_inj : ∀ p, p < 64 → ∀ q, q < 64 → p ≠ q →
    hamming57secded.synFun p ≠ hamming57secded.synFun q := by decide

theorem h57_map_synFun : ∀ p, p < 64 → p ≠ 1 →
    ∃ b, hamming57secded.mapSyndromeToBitPos (hamming57secded.synFun p) = some (p, b) := by
  decide

theorem h57_map_inv : ∀ s, s < 64 → 0 < s →
    ∃ pos, pos < 64 ∧ ∃ b, hamming57secded.mapSyndromeToBitPos s = some (pos, b) ∧
      hamming57secded.synFun pos = s := by decide

/-! ### hamming57secded: behaviour of Correct on packed words -/

theorem h57_correct_pack (v t : Nat) :
    hamming57secded.Correct (hamming57secded.PackWithCheckBits v t) =
      some (0, hamming57secded.PackWithCheckBits v t) := by
  obtain ⟨-, hp, hs⟩ := h57_pack_props v t
  exact h57_correct_p0s0 _ hp hs

theorem h57_correct_flip (v t p : Nat) (hp : p < 64) :
    hamming57secded.Correct (hamming57secded.PackWithCheckBits v t ^^^ (1 <<< p)) =
      some (1, hamming57secded.PackWithCheckBits v t) := by
  obtain ⟨hwlt, hwpar, hwsynd⟩ := h57_pack_props v t
  have hplt64 : (1 : Nat) <<< p < 2 ^ 64 := h4_shift_lt p hp
  have hparx : computeParityInt64 (hamming57secded.PackWithCheckBits v t ^^^ (1 <<< p)) = 1 := by
    rw [parity_xor _ _ hwlt hplt64, hwpar, parity_two_pow p hp]
  have hsynd : hamming57secded.syndOf (hamming57secded.PackWithCheckBits v t ^^^ (1 <<< p)) =
      hamming57secded.synFun p := by
    rw [h57_syndOf_xor, hwsynd, Nat.zero_xor, h57_synd_tab p hp]
  by_cases hp1 : p = 1
  · subst hp1
    have hs0 : hamming57secded.syndOf
        (hamming57secded.PackWithCheckBits v t ^^^ (1 <<< 1)) = 0 := by
      rw [hsynd]
      decide
    rw [h57_correct_p1s0 _ hparx hs0, show (1 : Nat) <<< 1 = 2 from by decide,
      Nat.xor_assoc, Nat.xor_self, Nat.xor_zero]
  · obtain ⟨b, hb⟩ := h57_map_synFun p hp hp1
    have hm : hamming57secded.mapSyndromeToBitPos
        (hamming57secded.syndOf (hamming57secded.PackWithCheckBits v t ^^^ (1 <<< p))) =
        some (p, b) := by
      rw [hsynd]
      exact hb
    rw [h57_correct_p1map _ p b hparx hm, Nat.xor_assoc, Nat.xor_self, Nat.xor_zero]

theorem h57_correct_two (v t p q : Nat) (hp : p < 64) (hq : q < 64) (hne : p ≠ q) :
    hamming57secded.Correct
        (hamming57secded.PackWithCheckBits v t ^^^ (1 <<< p) ^^^ (1 <<< q)) =
      some (2, 0) := by
  obtain ⟨hwlt, hwpar, hwsynd⟩ := h57_pack_props v t
  have hplt64 : (1 : Nat) <<< p < 2 ^ 64 := h4_shift_lt p hp
  have hqlt64 : (1 : Nat) <<< q < 2 ^ 64 := h4_shift_lt q hq
  have hx1 : hamming57secded.PackWithCheckBits v t ^^^ (1 <<< p) < 2 ^ 64 :=
    Nat.xor_lt_two_pow hwlt hplt64
  have hpar2 : computeParityInt64
      (hamming57secded.PackWithCheckBits v t ^^^ (1 <<< p) ^^^ (1 <<< q)) = 0 := by
    rw [parity_xor _ _ hx1 hqlt64, parity_xor _ _ hwlt hplt64, hwpar,
      parity_two_pow p hp, parity_two_pow q hq]
  apply h57_correct_p0sne _ hpar2
  rw [h57_syndOf_xor, h57_syndOf_xor, hwsynd, Nat.zero_xor, h57_synd_tab p hp,
    h57_synd_tab q hq]
  exact Nat.xor_ne_zero.mpr (h57_synFun_inj p hp q hq hne)

theorem h57_correct_total (w : Nat) : (hamming57secded.Correct w).isSome = true := by
  by_cases hp0 : computeParityInt64 w = 0
  · by_cases hs : hamming57secded.syndOf w = 0
    · rw [h57_correct_p0s0 w hp0 hs]
      rfl
    · rw [h57_correct_p0sne w hp0 hs]
      rfl
  · have hp1 : computeParityInt64 w = 1 := by have := parity_lt w; omega
    by_cases hs : hamming57secded.syndOf w = 0
    · rw [h57_correct_p1s0 w hp1 hs]
      rfl
    · obtain ⟨pos, hposlt, b, hm, -⟩ := h57_map_inv _ (h57_syndOf_lt w) (by omega)
      rw [h57_correct_p1map w pos b hp1 hm]
      rfl

theorem h57_correct_idem (w x : Nat) (hwlt : w < 2 ^ 64)
    (h : hamming57secded.Correct w = some (1, x)) :
    hamming57secded.Correct x = some (0, x) := by
  by_cases hp0 : computeParityInt64 w = 0
  · by_cases hs : hamming57secded.syndOf w = 0
    · rw [h57_correct_p0s0 w hp0 hs] at h
      simp at h
    · rw [h57_correct_p0sne w hp0 hs] at h
      simp at h
  · have hp1 : computeParityInt64 w = 1 := by have := parity_lt w; omega
    by_cases hs : hamming57secded.syndOf w = 0
    · rw [h57_correct_p1s0 w hp1 hs] at h
      have hx : w ^^^ 2 = x := by simpa using h
      subst hx
      apply h57_correct_p0s0
      · rw [parity_xor _ _ hwlt (by norm_num), hp1,
          show computeParityInt64 2 = 1 from by decide]
      · rw [h57_syndOf_xor, hs, show hamming57secded.syndOf 2 = 0 from by decide]
        decide
    · obtain ⟨pos, hposlt, b, hm, hpsyn⟩ := h57_map_inv _ (h57_syndOf_lt w) (by omega)
      rw [h57_correct_p1map w pos b hp1 hm] at h
      have hx : w ^^^ (1 <<< pos) = x := by simpa using h
      subst hx
      have hplt64 : (1 : Nat) <<< pos < 2 ^ 64 := h4_shift_lt pos (by omega)
      apply h57_correct_p0s0
      · rw [parity_xor _ _ hwlt hplt64, hp1, parity_two_pow pos (by omega)]
      · rw [h57_syndOf_xor, h57_synd_tab pos hposlt, hpsyn, Nat.xor_self]

/-! ### Claim theorems -/

/-- C1: single-bit correction, exhaustive: for every variant, for every
codeword w = pack(v, t) with v within the Value-field width and t in {0,1},
and for every bit position p below the codeword width, Correct(w XOR (1<<p))
returns error count 1 and the original codeword w. -/
theorem claim_C1_single_bit_correction :
    (∀ v t p : Nat, v < 2 ^ 3 → t < 2 → p < 8 →
      hamming4secded.Correct (hamming4secded.PackWithCheckBits v t ^^^ (1 <<< p)) =
        some (1, hamming4secded.PackWithCheckBits v t)) ∧
    (∀ v t p : Nat, v < 2 ^ 10 → t < 2 → p < 16 →
      hamming11secded.Correct (hamming11secded.PackWithCheckBits v t ^^^ (1 <<< p)) =
        some (1, hamming11secded.PackWithCheckBits v t)) ∧
    (∀ v t p : Nat, v < 2 ^ 56 → t < 2 → p < 64 →
      hamming57secded.Correct (hamming57secded.PackWithCheckBits v t ^^^ (1 <<< p)) =
        some (1, hamming57secded.PackWithCheckBits v t)) :=
  ⟨fun v t p _ _ hp => h4_correct_flip v t p hp,
   fun v t p _ _ hp => h11_correct_flip v t p hp,
   fun v t p _ _ hp => h57_correct_flip v t p hp⟩

/-- Witness for C1 at concrete inputs in each variant. -/
theorem claim_C1_witness :
    hamming4secded.Correct (hamming4secded.PackWithCheckBits 5 1 ^^^ (1 <<< 6)) =
      some (1, hamming4secded.PackWithCheckBits 5 1) ∧
    hamming11secded.Correct (hamming11secded.PackWithCheckBits 700 1 ^^^ (1 <<< 13)) =
      some (1, hamming11secded.PackWithCheckBits 700 1) ∧
    hamming57secded.Correct (hamming57secded.PackWithCheckBits 123456789 0 ^^^ (1 <<< 40)) =
      some (1, hamming57secded.PackWithCheckBits 123456789 0) :=
  ⟨claim_C1_single_bit_correction.1 5 1 6 (by norm_num) (by norm_num) (by norm_num),
   claim_C1_single_bit_correction.2.1 700 1 13 (by norm_num) (by norm_num) (by norm_num),
   claim_C1_single_bit_correction.2.2 123456789 0 40 (by norm_num) (by norm_num) (by norm_num)⟩

/-- C2: round-trip with zero errors: for every variant and all (inputValue,
tagBit) pairs within the variant field widths, Correct(Pack(v, t)) returns
error count 0 and the packed codeword unchanged. -/
theorem claim_C2_roundtrip_zero_errors :
    (∀ v t : Nat, v < 2 ^ 3 → t < 2 →
      hamming4secded.Correct (hamming4secded.PackWithCheckBits v t) =
        some (0, hamming4secded.PackWithCheckBits v t)) ∧
    (∀ v t : Nat, v < 2 ^ 10 → t < 2 →
      hamming11secded.Correct (hamming11secded.PackWithCheckBits v t) =
        some (0, hamming11secded.PackWithCheckBits v t)) ∧
    (∀ v t : Nat, v < 2 ^ 56 → t < 2 →
      hamming57secded.Correct (hamming57secded.PackWithCheckBits v t) =
        some (0, hamming57secded.PackWithCheckBits v t)) :=
  ⟨fun v t _ _ => h4_correct_pack v t,
   fun v t _ _ => h11_correct_pack v t,
   fun v t _ _ => h57_correct_pack v t⟩

/-- Witness for C2 at concrete inputs in each variant. -/
theorem claim_C2_witness :
    hamming4secded.Correct (hamming4secded.PackWithCheckBits 3 1) =
      some (0, hamming4secded.PackWithCheckBits 3 1) ∧
    hamming11secded.Correct (hamming11secded.PackWithCheckBits 1000 0) =
      some (0, hamming11secded.PackWithCheckBits 1000 0) ∧
    hamming57secded.Correct (hamming57secded.PackWithCheckBits 42 1) =
      some (0, hamming57secded.PackWithCheckBits 42 1) :=
  ⟨claim_C2_roundtrip_zero_errors.1 3 1 (by norm_num) (by norm_num),
   claim_C2_roundtrip_zero_errors.2.1 1000 0 (by norm_num) (by norm_num),
   claim_C2_roundtrip_zero_errors.2.2 42 1 (by norm_num) (by norm_num)⟩

/-- C3: double-bit detection: for every variant, every valid codeword and
every pair of distinct bit positions p and q below the codeword width,
correcting the doubly flipped word returns error count 2 and the sentinel
result 0 -- never 0 or 1 and never a silently mis-corrected value. -/
theorem claim_C3_double_bit_detection :
    (∀ v t p q : Nat, v < 2 ^ 3 → t < 2 → p < 8 → q < 8 → p ≠ q →
      hamming4secded.Correct
          (hamming4secded.PackWithCheckBits v t ^^^ (1 <<< p) ^^^ (1 <<< q)) =
        some (2, 0)) ∧
    (∀ v t p q : Nat, v < 2 ^ 10 → t < 2 → p < 16 → q < 16 → p ≠ q →
      hamming11secded.Correct
          (hamming11secded.PackWithCheckBits v t ^^^ (1 <<< p) ^^^ (1 <<< q)) =
        some (2, 0)) ∧
    (∀ v t p q : Nat, v < 2 ^ 56 → t < 2 → p < 64 → q < 64 → p ≠ q →
      hamming57secded.Correct
          (hamming57secded.PackWithCheckBits v t ^^^ (1 <<< p) ^^^ (1 <<< q)) =
        some (2, 0)) :=
  ⟨fun v t p q _ _ hp hq hne => h4_correct_two v t p q hp hq hne,
   fun v t p q _ _ hp hq hne => h11_correct_two v t p q hp hq hne,
   fun v t p q _ _ hp hq hne => h57_correct_two v t p q hp hq hne⟩

/-- Witness for C3 at concrete inputs in each variant. -/
theorem claim_C3_witness :
    hamming4secded.Correct
        (hamming4secded.PackWithCheckBits 2 0 ^^^ (1 <<< 3) ^^^ (1 <<< 6)) = some (2, 0) ∧
    hamming11secded.Correct
        (hamming11secded.PackWithCheckBits 512 1 ^^^ (1 <<< 0) ^^^ (1 <<< 15)) = some (2, 0) ∧
    hamming57secded.Correct
        (hamming57secded.PackWithCheckBits 99 0 ^^^ (1 <<< 1) ^^^ (1 <<< 62)) = some (2, 0) :=
  ⟨claim_C3_double_bit_detection.1 2 0 3 6 (by norm_num) (by norm_num) (by norm_num)
      (by norm_num) (by norm_num),
   claim_C3_double_bit_detection.2.1 512 1 0 15 (by norm_num) (by norm_num) (by norm_num)
      (by norm_num) (by norm_num),
   claim_C3_double_bit_detection.2.2 99 0 1 62 (by norm_num) (by norm_num) (by norm_num)
      (by norm_num) (by norm_num)⟩

/-- C4: concrete scenario, variant A (n=8): Pack(0b101, 1) is the fixed
8-bit integer 165 (0xa5); flipping bit 6 and correcting returns (1, 165);
flipping bits 3 and 6 simultaneously and correcting returns (2, 0). -/
theorem claim_C4_concrete_scenario :
    hamming4secded.PackWithCheckBits 5 1 = 165 ∧
    hamming4secded.Correct (165 ^^^ (1 <<< 6)) = some (1, 165) ∧
    hamming4secded.Correct (165 ^^^ (1 <<< 3) ^^^ (1 <<< 6)) = some (2, 0) := by decide

/-- C5: Correct is fatal-error-free for every int64 argument: for every
variant and every 64-bit word, Correct returns a result (none of the panic
branches modelled as none in mapSyndromeToBitPos is reachable). -/
theorem claim_C5_correct_total :
    (∀ w : Nat, w < 2 ^ 64 → (hamming4secded.Correct w).isSome = true) ∧
    (∀ w : Nat, w < 2 ^ 64 → (hamming11secded.Correct w).isSome = true) ∧
    (∀ w : Nat, w < 2 ^ 64 → (hamming57secded.Correct w).isSome = true) :=
  ⟨fun w _ => h4_correct_total w,
   fun w _ => h11_correct_total w,
   fun w _ => h57_correct_total w⟩

/-- Witness for C5 at a concrete word in each variant. -/
theorem claim_C5_witness :
    (hamming4secded.Correct 12345).isSome = true ∧
    (hamming11secded.Correct 54321).isSome = true ∧
    (hamming57secded.Correct 987654321).isSome = true :=
  ⟨claim_C5_correct_total.1 12345 (by norm_num),
   claim_C5_correct_total.2.1 54321 (by norm_num),
   claim_C5_correct_total.2.2 987654321 (by norm_num)⟩

/-- C6: freshly packed codewords have even overall parity: for every variant
and every inputValue and tagBit whatsoever, the population count of the
packed codeword is congruent to 0 modulo 2. -/
theorem claim_C6_even_parity :
    (∀ v t : Nat, onesCount64 (hamming4secded.PackWithCheckBits v t) % 2 = 0) ∧
    (∀ v t : Nat, onesCount64 (hamming11secded.PackWithCheckBits v t) % 2 = 0) ∧
    (∀ v t : Nat, onesCount64 (hamming57secded.PackWithCheckBits v t) % 2 = 0) := by
  refine ⟨fun v t => ?_, fun v t => ?_, fun v t => ?_⟩
  · have h := (h4_pack_props v t).2.1
    unfold computeParityInt64 at h
    rwa [Nat.and_one_is_mod] at h
  · have h := (h11_pack_props v t).2.1
    unfold computeParityInt64 at h
    rwa [Nat.and_one_is_mod] at h
  · have h := (h57_pack_props v t).2.1
    unfold computeParityInt64 at h
    rwa [Nat.and_one_is_mod] at h

/-- C7 counterexample: in the 16-bit variant the code maps syndrome 9 to
codeword position 9, whereas the claim formula (add 1 for each power-of-two
threshold already passed, i.e. at or below s) predicts position
9 + 4 = 13.  The adjustment counts the thresholds NOT yet passed. -/
theorem claim_C7_counterexample :
    hamming11secded.mapSyndromeToBitPos 9 = some (9, false) ∧
    9 + ((List.range 4).filter (fun i => 2 ^ i ≤ 9)).length ≠ 9 := by decide

/-- C7 (amended): for every variant, mapSyndromeToBitPos maps syndrome 3 to
position 0 (tag bit), a power-of-two syndrome s to check-bit position
log2(s) + 2, and any other nonzero syndrome s to the Value-field position
s + (number of power-of-two thresholds strictly above s, below 2^r) -- the
thresholds not yet passed, rather than the ones already passed; the boolean
result flags exactly the check-bit (power-of-two) syndromes. -/
theorem claim_C7_syndrome_map_amended :
    (∀ s : Nat, s < 8 → 0 < s →
      hamming4secded.mapSyndromeToBitPos s = some (specSyndromePos 3 s, isPow2 s)) ∧
    (∀ s : Nat, s < 16 → 0 < s →
      hamming11secded.mapSyndromeToBitPos s = some (specSyndromePos 4 s, isPow2 s)) ∧
    (∀ s : Nat, s < 64 → 0 < s →
      hamming57secded.mapSyndromeToBitPos s = some (specSyndromePos 6 s, isPow2 s)) := by
  refine ⟨?_, ?_, ?_⟩ <;> decide

/-- Witness for the amended C7 at concrete syndromes. -/
theorem claim_C7_witness :
    hamming4secded.mapSyndromeToBitPos 5 = some (specSyndromePos 3 5, isPow2 5) ∧
    hamming11secded.mapSyndromeToBitPos 9 = some (specSyndromePos 4 9, isPow2 9) ∧
    hamming57secded.mapSyndromeToBitPos 9 = some (specSyndromePos 6 9, isPow2 9) :=
  ⟨claim_C7_syndrome_map_amended.1 5 (by norm_num) (by norm_num),
   claim_C7_syndrome_map_amended.2.1 9 (by norm_num) (by norm_num),
   claim_C7_syndrome_map_amended.2.2 9 (by norm_num) (by norm_num)⟩

/-- C8 counterexample: in the 64-bit variant the excess bits of an
out-of-range inputValue are NOT carried into the codeword: bit 56 of the
input is shifted past bit 63 by the left shift by 8 and discarded, so the
packed result of 2^56 equals the packed result of its masked low 56 bits
(here 0), contradicting the claimed difference for every variant. -/
theorem claim_C8_counterexample :
    hamming57secded.PackWithCheckBits (2 ^ 56) 0 =
      hamming57secded.PackWithCheckBits (2 ^ 56 % 2 ^ 56) 0 := by decide

/-- C8 (amended): the encoder does not mask out-of-range input in the 8-bit
and 16-bit variants -- there is an inputValue wider than the Value field
whose packed result differs from the pack of its masked low bits and has
bits outside the documented n-bit layout -- but in the 64-bit variant the
codeword fills the whole word and input bits at position 56 and above are
discarded by the left shift: Pack(v, t) = Pack(v mod 2^56, t) for every v. -/
theorem claim_C8_unmasked_input_amended :
    (hamming4secded.PackWithCheckBits 8 0 ≠ hamming4secded.PackWithCheckBits (8 % 2 ^ 3) 0 ∧
      2 ^ 8 ≤ hamming4secded.PackWithCheckBits 8 0) ∧
    (hamming11secded.PackWithCheckBits 1024 0 ≠
        hamming11secded.PackWithCheckBits (1024 % 2 ^ 10) 0 ∧
      2 ^ 16 ≤ hamming11secded.PackWithCheckBits 1024 0) ∧
    (∀ v t : Nat, hamming57secded.PackWithCheckBits v t =
      hamming57secded.PackWithCheckBits (v % 2 ^ 56) t) := by
  refine ⟨by decide, by decide, fun v t => ?_⟩
  have hshift : (v <<< 8) % 2 ^ 64 = ((v % 2 ^ 56) <<< 8) % 2 ^ 64 := by
    rw [Nat.shiftLeft_eq, Nat.shiftLeft_eq]
    rw [show (2 : Nat) ^ 64 = 2 ^ 56 * 2 ^ 8 from by norm_num]
    rw [Nat.mul_mod_mul_right, Nat.mul_mod_mul_right,
      Nat.mod_mod_of_dvd v (dvd_refl (2 ^ 56))]
  simp only [hamming57secded.PackWithCheckBits]
  rw [hshift]

/-- C9: the uncorrectable-error sentinel collides with a valid codeword: in
every variant Pack(0, 0) = 0 and Correct(0) = (0, 0), while a double-bit
error also returns the same integer 0 (with error count 2); only the error
count distinguishes the two cases. -/
theorem claim_C9_sentinel_collision :
    (hamming4secded.PackWithCheckBits 0 0 = 0 ∧ hamming4secded.Correct 0 = some (0, 0) ∧
      hamming4secded.Correct (hamming4secded.PackWithCheckBits 0 0 ^^^ (1 <<< 0) ^^^ (1 <<< 3)) =
        some (2, 0)) ∧
    (hamming11secded.PackWithCheckBits 0 0 = 0 ∧ hamming11secded.Correct 0 = some (0, 0) ∧
      hamming11secded.Correct (hamming11secded.PackWithCheckBits 0 0 ^^^ (1 <<< 0) ^^^ (1 <<< 3)) =
        some (2, 0)) ∧
    (hamming57secded.PackWithCheckBits 0 0 = 0 ∧ hamming57secded.Correct 0 = some (0, 0) ∧
      hamming57secded.Correct (hamming57secded.PackWithCheckBits 0 0 ^^^ (1 <<< 0) ^^^ (1 <<< 3)) =
        some (2, 0)) := by decide

/-- C10: single-error repair always yields a valid codeword: for every
variant and every 64-bit word w, if Correct(w) returns (1, x) then
Correct(x) returns (0, x) -- the repaired word has even parity and zero
syndrome, so correction is idempotent on arbitrary inputs. -/
theorem claim_C10_repair_idempotent :
    (∀ w x : Nat, w < 2 ^ 64 → hamming4secded.Correct w = some (1, x) →
      hamming4secded.Correct x = some (0, x)) ∧
    (∀ w x : Nat, w < 2 ^ 64 → hamming11secded.Correct w = some (1, x) →
      hamming11secded.Correct x = some (0, x)) ∧
    (∀ w x : Nat, w < 2 ^ 64 → hamming57secded.Correct w = some (1, x) →
      hamming57secded.Correct x = some (0, x)) :=
  ⟨fun w x hw h => h4_correct_idem w x hw h,
   fun w x hw h => h11_correct_idem w x hw h,
   fun w x hw h => h57_correct_idem w x hw h⟩

/-- Witness for C10: in each variant Correct(1) = (1, 0), and correcting the
repaired word 0 yields (0, 0). -/
theorem claim_C10_witness :
    hamming4secded.Correct 0 = some (0, 0) ∧
    hamming11secded.Correct 0 = some (0, 0) ∧
    hamming57secded.Correct 0 = some (0, 0) :=
  ⟨claim_C10_repair_idempotent.1 1 0 (by norm_num) (by decide),
   claim_C10_repair_idempotent.2.1 1 0 (by norm_num) (by decide),
   claim_C10_repair_idempotent.2.2 1 0 (by norm_num) (by decide)⟩
